import Mathlib

/-!
# Workflow execution engine — verification development

A shallow embedding of the workflow execution engine of this repository
(`src/stores/workflowStore.ts`, together with the retry-input guard of its
only caller in `src/App.tsx` and the input-modal validation of
`src/components/WorkflowInputModal/index.tsx`).

The engine is JavaScript running on a single-threaded event loop: every
stretch of code between two `await`s executes atomically, and all
nondeterminism comes from the order in which the external promises settle
(the opaque External Executor — spec §6: "may take arbitrarily long; may
throw" — and the UI-backed Input Resolver) and from the control commands the
user issues.  We therefore embed the engine as a deterministic transition
function over an explicit state, driven by a trace of external events:

  * each `async` function of the source is defunctionalized: the code up to
    its first `await` runs inside the step that starts it, the code between
    two `await`s runs inside the step that settles the corresponding
    promise, and the data the closure captures across the `await` is stored
    in a suspension record;
  * the module-level mutable `activeRun` variable is modelled as an optional
    generation number into a heap of `WorkflowRun` records, so that (as in
    the source, where closures keep the old run object alive) continuations
    created under an old run still read and write that old record where the
    source accesses their captured `run` variable, while re-reads of the
    module variable `activeRun` see the current run;
  * an instrumentation log records executor launches (with a snapshot of
    the statuses of the launched node's dependencies), published input
    requests, dependency-counter decrements and ready-queue pushes.  The
    log is appended to and never read by the dynamics.
-/

set_option maxHeartbeats 1000000

namespace Workflow

/-- Node status (`WorkflowStatus` in `src/types/workflow.ts`). -/
inductive NStatus
  | pending
  | waiting
  | progressing
  | paused
  | done
  | error
  deriving DecidableEq, Repr

/-- Global run status (`workflowStatus` field of the store). -/
inductive GStatus
  | stopped
  | progressing
  | paused
  deriving DecidableEq, Repr

/-- Status of a `PendingInputItem` (`"pending" | "done" | "waiting"`). -/
inductive PStatus
  | pending
  | done
  | waiting
  deriving DecidableEq, Repr

/-- Input-field type (`SlotType` in `src/litegraph/types.ts`):
`"object" | "images" | "string" | "select" | "number"`. -/
inductive SlotType
  | object
  | images
  | string
  | select
  | number
  deriving DecidableEq, Repr

/-- JavaScript values as far as the engine and the input modal inspect them:
`undefined`, `null`, strings, numbers, booleans and arrays.  Everything else
the engine treats opaquely, so this carrier is sufficient. -/
inductive JValue
  | undef
  | jnull
  | jstr (s : String)
  | jnum (n : Int)
  | jbool (b : Bool)
  | jarr (elems : List JValue)

/-- A JavaScript plain object used as a string-keyed record
(`Record<string, any>` in the source).  Reading an absent key yields
`undefined`; writing overwrites in place (first write determines order,
which we never rely on). -/
abbrev ValMap := List (String × JValue)

namespace ValMap

/-- `m[k]`, with JavaScript's `undefined` for an absent key. -/
def get (m : ValMap) (k : String) : JValue :=
  match m.find? (fun p => p.1 = k) with
  | some p => p.2
  | none => JValue.undef

/-- `m[k] = v`. -/
def set (m : ValMap) (k : String) (v : JValue) : ValMap :=
  if m.any (fun p => p.1 = k) then
    m.map (fun p => if p.1 = k then (k, v) else p)
  else
    m ++ [(k, v)]

end ValMap

/-- JavaScript truthiness restricted to `JValue`.  Note that an array is
always truthy (even `[]`), the empty string, `0`, `null`, `undefined` and
`false` are falsy. -/
def truthy : JValue → Bool
  | JValue.undef => false
  | JValue.jnull => false
  | JValue.jstr s => !(s = "")
  | JValue.jnum n => !(n = 0)
  | JValue.jbool b => b
  | JValue.jarr _ => true

mutual

/-- JavaScript's `String(v)` for the values of our carrier (array elements
are joined with `","`, as `Array.prototype.toString` does). -/
def jsToString : JValue → String
  | JValue.undef => "undefined"
  | JValue.jnull => "null"
  | JValue.jstr s => s
  | JValue.jnum n => toString n
  | JValue.jbool b => if b then "true" else "false"
  | JValue.jarr xs => jsToStringList xs

/-- One element under `Array.prototype.join`: `undefined` and `null` become
the empty string (unlike top-level `String()`). -/
def jsToStringElem : JValue → String
  | JValue.undef => ""
  | JValue.jnull => ""
  | v => jsToString v

/-- Helper for `jsToString` on array elements (comma-joined). -/
def jsToStringList : List JValue → String
  | [] => ""
  | [x] => jsToStringElem x
  | x :: y :: xs => jsToStringElem x ++ "," ++ jsToStringList (y :: xs)

end

/-- One input port of a node definition (`NodePort` in
`src/stores/nodeStore.ts`, with the optional fields the input modal and the
engine read from it: `required`, `max`, `label`, `options`).  `required`
models JavaScript truthiness of the optional flag (absent = `false`);
`max` is `undefined` or a number (`some 0` is falsy where the source tests
`input.max &&`). -/
structure InputField where
  name : String
  type : SlotType
  required : Bool
  max : Option Nat
  label : Option String
  options : List String
  deriving DecidableEq, Repr

/-- `InputForm` (`src/types/workflow.ts`): one form is a list of fields. -/
abbrev InputForm := List InputField

/-- A node definition (`NodeSnapshot` in `src/stores/nodeStore.ts`,
restricted to the fields the engine reads). -/
structure NodeDef where
  id : Nat
  executionId : String
  title : Option String
  inputs : List InputField
  deriving DecidableEq, Repr

/-- A static graph node (`GraphNodeSnapshot` in `src/stores/graphStore.ts`;
the canvas position is irrelevant to the engine and omitted).  `nodeId` is
the definition reference; the source tests it for truthiness, which for a
number means `≠ 0`. -/
structure GraphNode where
  id : String
  nodeId : Nat
  executionId : String
  title : Option String
  properties : ValMap

/-- A static graph link (`GraphLink` in `src/stores/graphStore.ts`). -/
structure GraphLink where
  fromNodeId : String
  fromSlot : Nat
  toNodeId : String
  toSlot : Nat
  deriving DecidableEq, Repr

/-- A run-time workflow node (`WorkflowNodeSnapshot` in
`src/types/workflow.ts`).  The source type carries no `inputs` field, so the
fallback `node.inputs?.[link.toSlot]?.name` in `buildFormValueFromOutputs`
always yields `undefined`; we omit the field and that dead fallback. -/
structure WfNode where
  id : String
  nodeId : Nat
  executionId : String
  title : Option String
  status : NStatus
  inputFormValues : ValMap
  propertyValues : ValMap
  outputValue : Option JValue

/-- A run-time workflow link (`WorkflowLink = GraphLink & {status}`). -/
structure WfLink where
  fromNodeId : String
  fromSlot : Nat
  toNodeId : String
  toSlot : Nat
  status : NStatus
  deriving DecidableEq, Repr

/-- `PendingInputItem` of `workflowStore.ts`.  `formValue` is optional:
the items seeded at run start are built without it. -/
structure PendingInputItem where
  nodeId : String
  nodeName : String
  form : List InputForm
  status : PStatus
  formValue : Option ValMap

/-- Association-list lookup used for the `Map` objects of the run context
(`incoming`, `outgoing`, `remainingDeps`, `results`) and for the heap of run
records. -/
def alistGet {κ α : Type} [DecidableEq κ] (m : List (κ × α)) (k : κ) :
    Option α :=
  match m.find? (fun p => p.1 = k) with
  | some p => some p.2
  | none => none

/-- `Map.prototype.set`: overwrite or append. -/
def alistSet {κ α : Type} [DecidableEq κ] (m : List (κ × α)) (k : κ) (v : α) :
    List (κ × α) :=
  if m.any (fun p => p.1 = k) then
    m.map (fun p => if p.1 = k then (k, v) else p)
  else
    m ++ [(k, v)]

/-- Update the entry at key `k` in place (no-op when absent). -/
def alistUpdate {κ α : Type} [DecidableEq κ] (m : List (κ × α)) (k : κ)
    (f : α → α) : List (κ × α) :=
  m.map (fun p => if p.1 = k then (k, f p.2) else p)

/-- `WorkflowRun` of `workflowStore.ts` (one run context), extended with the
bookkeeping of the two `Promise.all`s that the source keeps implicitly in
suspended stack frames: `batchOutstanding` is the number of still-unsettled
tasks of the batch the (unique, `isRunning`-guarded) suspended `runQueue`
invocation of this run is awaiting, and `startOutstanding` the analogue for
`executeWorkflow`'s `await Promise.all(startNoInputTasks)`.
`remainingDeps` counts are integers because the source decrements them
below zero. -/
structure Run where
  incoming : List (String × List GraphLink)
  outgoing : List (String × List GraphLink)
  remainingDeps : List (String × Int)
  results : List (String × JValue)
  queue : List String
  isRunning : Bool
  nodeDefinitions : List (Nat × NodeDef)
  batchOutstanding : Option Nat
  startOutstanding : Option Nat

/-- The zustand store state (`WorkflowStore`), restricted to the engine's
fields.  `fillRegistered` models the presence of the `fillWorkflowInputs`
callback the App installs on mount (`executeWorkflow` returns without it). -/
structure Store where
  nodes : List WfNode
  links : List WfLink
  pendingInputs : List PendingInputItem
  workflowStatus : GStatus
  fillRegistered : Bool

/-- `getNodeName` (workflowStore.ts line 40): `node.title ?? node.executionId
?? "节点"`.  `executionId` is a non-optional string in the snapshot type, so
the last fallback is dead; we keep the first. -/
def getNodeName (node : WfNode) : String :=
  match node.title with
  | some t => t
  | none => node.executionId

/-- `toInputForms` (workflowStore.ts lines 42-46): look the definition up
when `node.nodeId` is truthy, take its `inputs` and wrap a non-empty list
in a singleton forms list. -/
def toInputForms (node : WfNode) (nodeDefinitions : List (Nat × NodeDef)) :
    List InputForm :=
  let definition :=
    if node.nodeId ≠ 0 then
      (nodeDefinitions.find? (fun p => p.1 = node.nodeId)).map Prod.snd
    else none
  let inputs := match definition with
    | some d => d.inputs
    | none => []
  if inputs.length > 0 then [inputs] else []

/-- JavaScript's whitespace class as far as `trim` is concerned, restricted
to the characters that occur in this development. -/
def isJsWhitespace (c : Char) : Bool :=
  c = ' ' || c = '\t' || c = '\n' || c = '\r'

/-- `s.trim() === ""`: a string trims to empty exactly when every character
is whitespace (we embed the emptiness test directly — the only use the
source makes of `trim`). -/
def blankString (s : String) : Bool :=
  s.toList.all isJsWhitespace

/-- The emptiness test of `getRequiredMissing` for a single value:
`undefined`, `null`, or a string that is blank after `trim`. -/
def requiredValueMissing (v : JValue) : Bool :=
  match v with
  | JValue.undef => true
  | JValue.jnull => true
  | JValue.jstr s => blankString s
  | _ => false

/-- `getRequiredMissing` (workflowStore.ts lines 48-64): some required field
of some form has a missing value under the key `"{formIndex}:{name}"`. -/
def getRequiredMissing (forms : List InputForm) (values : ValMap) : Bool :=
  (forms.enum).any (fun fi =>
    fi.2.any (fun input =>
      if !input.required then false
      else requiredValueMissing (ValMap.get values (toString fi.1 ++ ":" ++ input.name))))

/-- `buildFormValueFromOutputs` (workflowStore.ts lines 66-88): for each
incoming link, take the upstream node's stored result (skipping absent
results) and file it under `"0:" ++` the input-port name from the node's
definition (the `node.inputs` fallback of line 77 is dead, see `WfNode`). -/
def buildFormValueFromOutputs (node : WfNode) (run : Run) : ValMap :=
  let incoming := (alistGet run.incoming node.id).getD []
  if incoming.length = 0 then []
  else
    let definition :=
      if node.nodeId ≠ 0 then
        (run.nodeDefinitions.find? (fun p => p.1 = node.nodeId)).map Prod.snd
      else none
    incoming.foldl (fun values link =>
      let inputName := match definition with
        | some d => (d.inputs.get? link.toSlot).map InputField.name
        | none => none
      match inputName with
      | none => values
      | some name =>
        match alistGet run.results link.fromNodeId with
        | none => values
        | some outputValue => ValMap.set values ("0:" ++ name) outputValue) []

/-- `upsertPendingInput` (workflowStore.ts lines 589-595).  The merge
`{...item, ...nextItem}` replaces every field because `nextItem` always
carries all of them at the call sites. -/
def upsertPendingInput (items : List PendingInputItem)
    (nextItem : PendingInputItem) : List PendingInputItem :=
  if items.any (fun item => item.nodeId = nextItem.nodeId) then
    items.map (fun item => if item.nodeId = nextItem.nodeId then nextItem else item)
  else
    items ++ [nextItem]

/-- `updatePendingInputStatus` (workflowStore.ts lines 597-601). -/
def updatePendingInputStatus (items : List PendingInputItem) (nodeId : String)
    (status : PStatus) : List PendingInputItem :=
  items.map (fun item =>
    if item.nodeId = nodeId then { item with status := status } else item)

/-- The value `executeNodeWithInputs` returns to its caller, plus `thrown`
for the case where the stretch of code resumed after an `await` raises (an
executor rejection outside the forms-path `try`, or the `TypeError` from
dereferencing a null `activeRun`) and the exception propagates to the
awaiting caller as a promise rejection. -/
inductive Outcome
  | success
  | error
  | waiting
  | thrown
  deriving DecidableEq, Repr

/-- The caller awaiting one `executeNodeWithInputs` invocation: a task of
`startNoInputTasks` (workflowStore.ts line 423), a task of a `runQueue`
batch (line 374), the sequential `processPendingInputs` loop (line 413), or
the drain loop inside `retryNodeInput` (line 560).  The generation
identifies the run object the caller captured. -/
inductive CallerCtx
  | startTask (gen : Nat)
  | batchTask (gen : Nat)
  | pendingLoop
  | retryDrain (gen : Nat) (retryId : String)
  deriving DecidableEq, Repr

/-- Which `await` inside `executeNodeWithInputs` a suspended executor call
belongs to: line 119 (node with incoming edges), line 144 (no incoming, no
forms — the no-form path), or line 191 (after the input request resolved
with `values`). -/
inductive ExecSite
  | execIncoming
  | execNoForm
  | execAfterFill (values : ValMap)

/-- An outstanding external promise together with the continuation data the
suspended JavaScript frame captured: an executor call or an input request of
`executeNodeWithInputs`, or the corresponding ones of `retryNodeInput`
(which, unlike `executeNodeWithInputs`, writes through its captured `run`
variable of generation `gen`). -/
inductive Susp
  | nodeExec (node : WfNode) (site : ExecSite) (ctx : CallerCtx)
  | nodeFill (node : WfNode) (inputForms : List InputForm) (ctx : CallerCtx)
  | retryFill (gen : Nat) (node : WfNode) (inputForms : List InputForm)
  | retryExec (gen : Nat) (node : WfNode) (values : ValMap)

/-- Ghost instrumentation (never read by the dynamics).
`execLaunch` records, at the instant `executeNode` is invoked, the payload
values and a snapshot of the node's dependencies: for every published link
into the node, the upstream node id, its current published status and
whether the active run's results map holds its output.  `depDecr` and
`enqueue` record dependency-counter decrements and ready-queue pushes on the
run record of generation `gen`.  `nullDeref` marks the `TypeError` raised
when a resumed continuation dereferences `activeRun` while it is null;
`unhandledRejection` marks a rejection propagating into a floating promise;
`loopBudget` marks the (source-divergent) exhaustion of a loop's fuel. -/
inductive LogEntry
  | execLaunch (nodeId : String) (values : ValMap)
      (deps : List (String × Option NStatus × Bool))
  | fillRequest (nodeId : String)
  | depDecr (gen : Nat) (fromNodeId toNodeId : String) (newCount : Int)
  | enqueue (gen : Nat) (nodeId : String)
  | nullDeref (nodeId : String)
  | unhandledRejection
  | loopBudget

/-- The complete engine state: the static graph snapshot and definition
registry (read once per run start; graph editing during a run is outside
the engine and not modelled), the zustand store, the heap of run records
with the `activeRun` generation pointer, the outstanding external promises,
and the ghost log. -/
structure EngineState where
  graphNodes : List GraphNode
  graphLinks : List GraphLink
  nodeDefs : List (Nat × NodeDef)
  store : Store
  runs : List (Nat × Run)
  activeGen : Option Nat
  nextGen : Nat
  susps : List (Nat × Susp)
  nextCid : Nat
  log : List LogEntry

/-- Append a ghost log entry. -/
def emit (s : EngineState) (e : LogEntry) : EngineState :=
  { s with log := s.log ++ [e] }

/-- `setState` mapping one node of the published node array. -/
def mapStoreNode (s : EngineState) (nodeId : String) (f : WfNode → WfNode) :
    EngineState :=
  { s with store := { s.store with
      nodes := s.store.nodes.map (fun n => if n.id = nodeId then f n else n) } }

/-- `setState` writing one node's status. -/
def setNodeStatus (s : EngineState) (nodeId : String) (st : NStatus) :
    EngineState :=
  mapStoreNode s nodeId (fun n => { n with status := st })

/-- The repeated `links.map` update marking every link out of `nodeId` as
`DONE` (workflowStore.ts lines 131-133, 156-158, 211-213, 535-537). -/
def setLinksDoneFrom (s : EngineState) (nodeId : String) : EngineState :=
  { s with store := { s.store with
      links := s.store.links.map (fun l =>
        if l.fromNodeId = nodeId then { l with status := NStatus.done } else l) } }

/-- `setState` on the pending-input list. -/
def setPendingInputs (s : EngineState)
    (f : List PendingInputItem → List PendingInputItem) : EngineState :=
  { s with store := { s.store with pendingInputs := f s.store.pendingInputs } }

/-- `set({workflowStatus})`. -/
def setGlobalStatus (s : EngineState) (g : GStatus) : EngineState :=
  { s with store := { s.store with workflowStatus := g } }

/-- Update the run record of generation `gen` in the heap. -/
def updateRun (s : EngineState) (gen : Nat) (f : Run → Run) : EngineState :=
  { s with runs := alistUpdate s.runs gen f }

/-- The run record the module variable `activeRun` currently points to. -/
def activeRun (s : EngineState) : Option Run :=
  match s.activeGen with
  | some g => alistGet s.runs g
  | none => none

/-- The ghost dependency snapshot recorded with each executor launch: for
every published link into `nodeId`, the source node id, its current
published status, and whether the active run's results map already holds
its output. -/
def depsSnapshot (s : EngineState) (nodeId : String) :
    List (String × Option NStatus × Bool) :=
  s.store.links.filterMap (fun l =>
    if l.toNodeId = nodeId then
      some (l.fromNodeId,
        (s.store.nodes.find? (fun n => n.id = l.fromNodeId)).map WfNode.status,
        match activeRun s with
        | some run => (alistGet run.results l.fromNodeId).isSome
        | none => false)
    else none)

/-- Issue an external executor call (`await getState().executeNode({...})`):
allocate a promise id, record the suspension, and log the launch with its
payload and dependency snapshot. -/
def issueExec (s : EngineState) (nodeId : String) (values : ValMap)
    (susp : Susp) : EngineState :=
  let s := emit s (LogEntry.execLaunch nodeId values (depsSnapshot s nodeId))
  { s with susps := s.susps ++ [(s.nextCid, susp)], nextCid := s.nextCid + 1 }

/-- Issue an input request (`await …fillWorkflowInputs({...})`): allocate a
promise id, record the suspension, and log the published request. -/
def issueFill (s : EngineState) (nodeId : String) (susp : Susp) :
    EngineState :=
  let s := emit s (LogEntry.fillRequest nodeId)
  { s with susps := s.susps ++ [(s.nextCid, susp)], nextCid := s.nextCid + 1 }

/-- Remove a settled promise from the outstanding table. -/
def removeCid (s : EngineState) (cid : Nat) : EngineState :=
  { s with susps := s.susps.filter (fun p => p.1 ≠ cid) }

/-- The dependency-propagation block the source repeats three times
(workflowStore.ts lines 348-355 in `handleNodeSuccess`, 540-547 in
`retryNodeInput`, 564-571 in its drain loop): for each outgoing link of
`nodeId` in the run record of generation `gen`, decrement the target's
remaining-dependency counter and push the target onto that run's ready
queue when the counter hits exactly zero. -/
def propagateDeps (s : EngineState) (gen : Nat) (nodeId : String) :
    EngineState :=
  match alistGet s.runs gen with
  | none => s
  | some run =>
    (alistGet run.outgoing nodeId).getD [] |>.foldl (fun s link =>
      match alistGet s.runs gen with
      | none => s
      | some run =>
        let nextCount : Int := ((alistGet run.remainingDeps link.toNodeId).getD 0) - 1
        let s := updateRun s gen (fun r =>
          { r with remainingDeps := alistSet r.remainingDeps link.toNodeId nextCount })
        let s := emit s (LogEntry.depDecr gen nodeId link.toNodeId nextCount)
        if nextCount = 0 then
          let s := updateRun s gen (fun r =>
            { r with queue := r.queue ++ [link.toNodeId] })
          emit s (LogEntry.enqueue gen link.toNodeId)
        else s) s

/-- `executeNodeWithInputs` (workflowStore.ts lines 90-225) up to its first
`await`.  Returns `some outcome` when the call settles synchronously (the
null-`activeRun` early return, or the validation failure of a node with
incoming edges), `none` when it suspends on an executor call or an input
request.  A synchronous `success` is impossible: every success path crosses
an `await`; the success continuation of the caller's task therefore always
runs at resume time (`settleCtx`). -/
def launchNode (s : EngineState) (node : WfNode) (ctx : CallerCtx) :
    EngineState × Option Outcome :=
  match activeRun s with
  | none => (s, some Outcome.error)
  | some run =>
    let inputForms := toInputForms node run.nodeDefinitions
    let formValue := buildFormValueFromOutputs node run
    let hasIncoming := ((alistGet run.incoming node.id).getD []).length > 0
    if hasIncoming then
      if inputForms.length > 0 ∧ getRequiredMissing inputForms formValue then
        (setNodeStatus s node.id NStatus.error, some Outcome.error)
      else
        let s := mapStoreNode s node.id (fun n =>
          { n with status := NStatus.progressing, inputFormValues := formValue })
        (issueExec s node.id formValue (Susp.nodeExec node ExecSite.execIncoming ctx),
          none)
    else if inputForms.length = 0 then
      let s := setNodeStatus s node.id NStatus.progressing
      (issueExec s node.id [] (Susp.nodeExec node ExecSite.execNoForm ctx), none)
    else
      let s := setNodeStatus s node.id NStatus.progressing
      let s := setPendingInputs s (fun items => upsertPendingInput items
        { nodeId := node.id, nodeName := getNodeName node, form := inputForms,
          status := PStatus.pending, formValue := some formValue })
      (issueFill s node.id (Susp.nodeFill node inputForms ctx), none)

/-- Launch the tasks `batch.map(async (nodeId) => {...})` (workflowStore.ts
lines 374-383, and identically `startNoInputTasks` at 423-432): each task
looks its node up and calls `executeNodeWithInputs`.  Returns the number of
tasks that suspended (the missing-node early return and the synchronous
outcomes settle immediately).  A synchronously settled task's outcome can
only be `error`, so its `if (outcome === "success") handleNodeSuccess` line
is dead on this path and performed at resume time instead. -/
def launchTaskStep (ctx : CallerCtx) (acc : EngineState × Nat) (id : String) :
    EngineState × Nat :=
  match acc.1.store.nodes.find? (fun n => n.id = id) with
  | none => acc
  | some node =>
    let r := launchNode acc.1 node ctx
    match r.2 with
    | none => (r.1, acc.2 + 1)
    | some _ => (r.1, acc.2)

/-- Launch one task per id, counting the suspended ones. -/
def launchTasks (s : EngineState) (ids : List String) (ctx : CallerCtx) :
    EngineState × Nat :=
  ids.foldl (launchTaskStep ctx) (s, 0)

/-- The `while` loop of `runQueue` (workflowStore.ts lines 367-389),
resumable: each round re-checks the queue of the run captured at entry
(generation `gen`), then the current global status, splices the whole
queue into a batch and launches one task per batch node.  If any task
suspended, the loop parks awaiting `Promise.all` (`batchOutstanding`);
otherwise it loops (the fuel is a modelling bound — synchronously settled
tasks never push onto the queue, so two rounds always suffice).  On natural
exit it clears `isRunning` and flips a still-`progressing` global status to
`stopped`. -/
def runQueueGo (s : EngineState) (gen : Nat) : Nat → EngineState
  | 0 => emit s LogEntry.loopBudget
  | fuel + 1 =>
    match alistGet s.runs gen with
    | none => s
    | some run =>
      if run.queue.isEmpty then
        let s := updateRun s gen (fun r => { r with isRunning := false })
        if s.store.workflowStatus = GStatus.progressing then
          setGlobalStatus s GStatus.stopped
        else s
      else if s.store.workflowStatus ≠ GStatus.progressing then
        updateRun s gen (fun r => { r with isRunning := false })
      else
        let batch := run.queue
        let launched := launchTasks (updateRun s gen (fun r => { r with queue := [] }))
          batch (CallerCtx.batchTask gen)
        if launched.2 = 0 then runQueueGo launched.1 gen fuel
        else updateRun launched.1 gen
          (fun r => { r with batchOutstanding := some launched.2 })

/-- `runQueue` invocation (workflowStore.ts lines 361-366 plus the loop):
read the current `activeRun`, bail out when absent or already draining,
otherwise set `isRunning` and enter the loop. -/
def invokeRunQueue (s : EngineState) : EngineState :=
  match s.activeGen with
  | none => s
  | some gen =>
    match alistGet s.runs gen with
    | none => s
    | some run =>
      if run.isRunning then s
      else
        let s := updateRun s gen (fun r => { r with isRunning := true })
        runQueueGo s gen (run.queue.length + 2)

/-- `handleNodeSuccess` (workflowStore.ts lines 343-359): propagate
dependency satisfaction on the *current* `activeRun` and kick the queue
drain if it is idle and non-empty. -/
def handleNodeSuccess (s : EngineState) (nodeId : String) : EngineState :=
  match s.activeGen with
  | none => s
  | some gen =>
    let s := propagateDeps s gen nodeId
    match alistGet s.runs gen with
    | none => s
    | some run =>
      if !run.isRunning ∧ run.queue.length > 0 then invokeRunQueue s else s

/-- The `while (true)` loop of `processPendingInputs` (workflowStore.ts
lines 404-420), resumable after each inner `executeNodeWithInputs` settles:
pick the first pending-input item still `"pending"`, look its node up, run
it; a suspension parks the loop (it continues in `settleCtx`), a
synchronous settle loops after the success/status checks.  The fuel is a
modelling bound: when an iteration neither suspends nor changes the item
(possible only with a null `activeRun` or a validation-failing node with
incoming edges under a foreign run), the source loops forever; we log
`loopBudget` and stop instead. -/
def pendingLoopGo (s : EngineState) : Nat → EngineState
  | 0 => emit s LogEntry.loopBudget
  | fuel + 1 =>
    match s.store.pendingInputs.find? (fun item => item.status = PStatus.pending) with
    | none => s
    | some item =>
      match s.store.nodes.find? (fun n => n.id = item.nodeId) with
      | none => s
      | some node =>
        let r := launchNode s node CallerCtx.pendingLoop
        match r.2 with
        | none => r.1
        | some o =>
          let t := if o = Outcome.success then handleNodeSuccess r.1 item.nodeId else r.1
          if t.store.workflowStatus ≠ GStatus.progressing then t
          else pendingLoopGo t fuel

/-- Entry of `processPendingInputs` (workflowStore.ts lines 400-403): the
status guard, then the loop. -/
def pendingLoopEntry (s : EngineState) : EngineState :=
  if s.store.workflowStatus ≠ GStatus.progressing then s
  else pendingLoopGo s (s.store.pendingInputs.length + 1)

/-- The drain loop of `retryNodeInput` (workflowStore.ts lines 549-574),
resumable: shift one node id off the captured run's queue, skip missing
nodes, run `executeNodeWithInputs`; a suspension parks the loop (continued
in `settleCtx`, with `isRunning` left `true`); on `success` propagate
dependencies (lines 564-571 — the source repeats the block inline rather
than calling `handleNodeSuccess`) and continue; on exhaustion clear
`isRunning`.  A synchronous `success` cannot happen but the branch follows
the source.  The fuel is a modelling bound on loop rounds. -/
def drainLoopGo (s : EngineState) (gen : Nat) (retryId : String) :
    Nat → EngineState
  | 0 => emit s LogEntry.loopBudget
  | fuel + 1 =>
    match alistGet s.runs gen with
    | none => s
    | some run =>
      match run.queue with
      | [] => updateRun s gen (fun r => { r with isRunning := false })
      | id :: rest =>
        let t := updateRun s gen (fun r => { r with queue := rest })
        match t.store.nodes.find? (fun n => n.id = id) with
        | none => drainLoopGo t gen retryId fuel
        | some node =>
          let r := launchNode t node (CallerCtx.retryDrain gen retryId)
          match r.2 with
          | none => r.1
          | some o =>
            if o = Outcome.success then
              drainLoopGo (propagateDeps r.1 gen id) gen retryId fuel
            else drainLoopGo r.1 gen retryId fuel

/-- Deliver a settled `executeNodeWithInputs` outcome to its awaiting
caller: the task epilogue (`if (outcome === "success")
handleNodeSuccess(...)`), then the caller's own continuation — the
`Promise.all` bookkeeping of `executeWorkflow` (resuming `runQueue` when the
start tasks are all settled) or of the suspended `runQueue` loop (resuming
it when its batch is settled), the next round of `processPendingInputs`, or
the continuation of `retryNodeInput`'s drain loop.  A `thrown` outcome is a
promise rejection: it skips the epilogue, rejects the corresponding
`Promise.all` (whose awaiter — `executeWorkflow` or `onRun` — has nothing
observable after it, so only the ghost `unhandledRejection` remains), aborts
`processPendingInputs`' floating promise, or lands in `retryNodeInput`'s
`catch`, which re-marks the *retried* node as waiting (and leaves the
captured run's `isRunning` flag set, as the source does). -/
def settleCtx (s : EngineState) (ctx : CallerCtx) (nodeId : String)
    (o : Outcome) : EngineState :=
  match ctx with
  | CallerCtx.startTask gen =>
    let s := if o = Outcome.success then handleNodeSuccess s nodeId else s
    (match alistGet s.runs gen with
    | none => s
    | some run =>
      match run.startOutstanding with
      | some (k + 1) =>
        if o = Outcome.thrown then
          emit (updateRun s gen (fun r => { r with startOutstanding := none }))
            LogEntry.unhandledRejection
        else if k = 0 then
          invokeRunQueue (updateRun s gen (fun r => { r with startOutstanding := none }))
        else updateRun s gen (fun r => { r with startOutstanding := some k })
      | _ => if o = Outcome.thrown then emit s LogEntry.unhandledRejection else s)
  | CallerCtx.batchTask gen =>
    let s := if o = Outcome.success then handleNodeSuccess s nodeId else s
    (match alistGet s.runs gen with
    | none => s
    | some run =>
      match run.batchOutstanding with
      | some (k + 1) =>
        if o = Outcome.thrown then
          emit (updateRun s gen (fun r => { r with batchOutstanding := none }))
            LogEntry.unhandledRejection
        else if k = 0 then
          let s := updateRun s gen (fun r => { r with batchOutstanding := none })
          match alistGet s.runs gen with
          | none => s
          | some run => runQueueGo s gen (run.queue.length + 2)
        else updateRun s gen (fun r => { r with batchOutstanding := some k })
      | _ => if o = Outcome.thrown then emit s LogEntry.unhandledRejection else s)
  | CallerCtx.pendingLoop =>
    if o = Outcome.thrown then emit s LogEntry.unhandledRejection
    else
      let s := if o = Outcome.success then handleNodeSuccess s nodeId else s
      if s.store.workflowStatus ≠ GStatus.progressing then s
      else pendingLoopGo s (s.store.pendingInputs.length + 1)
  | CallerCtx.retryDrain gen retryId =>
    if o = Outcome.thrown then
      let s := setNodeStatus s retryId NStatus.waiting
      setPendingInputs s (fun items =>
        updatePendingInputStatus items retryId PStatus.waiting)
    else
      let s := if o = Outcome.success then propagateDeps s gen nodeId else s
      match alistGet s.runs gen with
      | none => s
      | some run => drainLoopGo s gen retryId (run.queue.length + 1)

/-- The completion update repeated at every success site (workflowStore.ts
lines 125-134, 150-159, 197-214 and 521-538): publish the node as `DONE`
(with its output and, on the form paths, the resolved input values via `f`)
and mark every link out of it `DONE`.  On the form paths the source splits
this over two consecutive `setState` calls with the pending-item update in
between; the whole stretch is synchronous, so the composed state is the
same. -/
def publishNodeDone (s : EngineState) (nodeId : String) (f : WfNode → WfNode) :
    EngineState :=
  let s := mapStoreNode s nodeId (fun n => { f n with status := NStatus.done })
  setLinksDoneFrom s nodeId

/-- An executor promise resolves with value `v`.  For the incoming/no-form
sites (workflowStore.ts lines 119-135 and 144-160) the continuation first
dereferences the module variable `activeRun` (`activeRun.results.set`): if a
stop nulled it meanwhile this raises a `TypeError` that propagates to the
caller (`thrown`); otherwise the result is stored in the *current* run's
results map — the source has no staleness check — the node is published as
`DONE` with its output, its outgoing links are marked `DONE`, and the caller
sees `success`.  The after-fill site (lines 191-215) behaves the same except
that the whole stretch sits inside the forms-path `try`, so the null
`TypeError` is caught and the node re-marked `WAITING`; on success it also
stores the resolved form values and marks the pending item `done`.  A
`retryExec` suspension (lines 515-574) writes the result through its
captured run record, then runs the decrement block and, if that run is not
draining, its inline drain loop. -/
def resumeExecOk (s : EngineState) (cid : Nat) (v : JValue) : EngineState :=
  match alistGet s.susps cid with
  | none => s
  | some susp =>
    match susp with
    | Susp.nodeExec node site ctx =>
      let s := removeCid s cid
      (match site with
      | ExecSite.execIncoming | ExecSite.execNoForm =>
        (match s.activeGen with
        | none =>
          settleCtx (emit s (LogEntry.nullDeref node.id)) ctx node.id Outcome.thrown
        | some gen =>
          let s := updateRun s gen (fun r =>
            { r with results := alistSet r.results node.id v })
          let s := publishNodeDone s node.id (fun n => { n with outputValue := some v })
          settleCtx s ctx node.id Outcome.success)
      | ExecSite.execAfterFill values =>
        (match s.activeGen with
        | none =>
          let s := emit s (LogEntry.nullDeref node.id)
          let s := setNodeStatus s node.id NStatus.waiting
          let s := setPendingInputs s (fun items =>
            updatePendingInputStatus items node.id PStatus.waiting)
          settleCtx s ctx node.id Outcome.waiting
        | some gen =>
          let s := updateRun s gen (fun r =>
            { r with results := alistSet r.results node.id v })
          let s := publishNodeDone s node.id (fun n =>
            { n with inputFormValues := values, outputValue := some v })
          let s := setPendingInputs s (fun items =>
            updatePendingInputStatus items node.id PStatus.done)
          settleCtx s ctx node.id Outcome.success))
    | Susp.retryExec gen node values =>
      let s := removeCid s cid
      let s := updateRun s gen (fun r =>
        { r with results := alistSet r.results node.id v })
      let s := publishNodeDone s node.id (fun n =>
        { n with inputFormValues := values, outputValue := some v })
      let s := setPendingInputs s (fun items =>
        updatePendingInputStatus items node.id PStatus.done)
      let s := propagateDeps s gen node.id
      (match alistGet s.runs gen with
      | none => s
      | some run =>
        if run.isRunning then s
        else
          let s := updateRun s gen (fun r => { r with isRunning := true })
          drainLoopGo s gen node.id (run.queue.length + 1))
    | _ => s

/-- An executor promise rejects.  At the incoming/no-form sites there is no
enclosing `try`, so the rejection propagates to the awaiting caller
(`thrown`) and the node keeps whatever status it had (`PROGRESSING`).  At
the after-fill site the rejection lands in the forms-path `catch`
(workflowStore.ts lines 216-224), which re-marks the node `WAITING`; the
`retryExec` case lands in `retryNodeInput`'s `catch` (lines 575-582). -/
def resumeExecErr (s : EngineState) (cid : Nat) : EngineState :=
  match alistGet s.susps cid with
  | none => s
  | some susp =>
    match susp with
    | Susp.nodeExec node site ctx =>
      let s := removeCid s cid
      (match site with
      | ExecSite.execAfterFill _ =>
        let s := setNodeStatus s node.id NStatus.waiting
        let s := setPendingInputs s (fun items =>
          updatePendingInputStatus items node.id PStatus.waiting)
        settleCtx s ctx node.id Outcome.waiting
      | _ => settleCtx s ctx node.id Outcome.thrown)
    | Susp.retryExec _ node _ =>
      let s := removeCid s cid
      let s := setNodeStatus s node.id NStatus.waiting
      setPendingInputs s (fun items =>
        updatePendingInputStatus items node.id PStatus.waiting)
    | _ => s

/-- An input request resolves with `values` (workflowStore.ts lines 177-195
for the forms path, 501-519 for `retryNodeInput`): validate with
`getRequiredMissing` against the captured forms — on failure mark the node
`ERROR` (the retry path leaves the pending item untouched here) — otherwise
issue the executor call and stay suspended at the next `await`. -/
def resumeFillOk (s : EngineState) (cid : Nat) (values : ValMap) :
    EngineState :=
  match alistGet s.susps cid with
  | none => s
  | some susp =>
    match susp with
    | Susp.nodeFill node inputForms ctx =>
      let s := removeCid s cid
      if getRequiredMissing inputForms values then
        settleCtx (setNodeStatus s node.id NStatus.error) ctx node.id Outcome.error
      else
        issueExec s node.id values
          (Susp.nodeExec node (ExecSite.execAfterFill values) ctx)
    | Susp.retryFill gen node inputForms =>
      let s := removeCid s cid
      if getRequiredMissing inputForms values then
        setNodeStatus s node.id NStatus.error
      else
        issueExec s node.id values (Susp.retryExec gen node values)
    | _ => s

/-- An input request rejects (the modal was dismissed or replaced): both the
forms-path `catch` (workflowStore.ts lines 216-224) and `retryNodeInput`'s
`catch` (lines 575-582) re-mark the node `WAITING` and the pending item
`"waiting"`. -/
def resumeFillErr (s : EngineState) (cid : Nat) : EngineState :=
  match alistGet s.susps cid with
  | none => s
  | some susp =>
    match susp with
    | Susp.nodeFill node _ ctx =>
      let s := removeCid s cid
      let s := setNodeStatus s node.id NStatus.waiting
      let s := setPendingInputs s (fun items =>
        updatePendingInputStatus items node.id PStatus.waiting)
      settleCtx s ctx node.id Outcome.waiting
    | Susp.retryFill _ node _ =>
      let s := removeCid s cid
      let s := setNodeStatus s node.id NStatus.waiting
      setPendingInputs s (fun items =>
        updatePendingInputStatus items node.id PStatus.waiting)
    | _ => s

/-- `executeWorkflow` (workflowStore.ts lines 260-439) up to the point where
every spawned activity has parked on an external promise: rebuild the
workflow nodes and links from the graph snapshot, derive the dependency
maps, counters and initial ready set, seed the pending-input items for the
zero-dependency nodes that have an input form (marking them `WAITING`),
install the fresh run record as the new `activeRun`, set the global status
to `progressing`, empty the run's queue (line 398), launch one task per
zero-dependency form-less node, start `processPendingInputs`, and — when
every start task settled synchronously — proceed past the `Promise.all` to
`await runQueue()`; otherwise record how many start tasks are outstanding. -/
def executeWorkflowStep (s : EngineState) : EngineState :=
  if !s.store.fillRegistered then s
  else
    let workflowNodes : List WfNode := s.graphNodes.map (fun gn =>
      { id := gn.id, nodeId := gn.nodeId, executionId := gn.executionId,
        title := gn.title, status := NStatus.pending, inputFormValues := [],
        propertyValues := gn.properties, outputValue := none })
    let workflowLinks : List WfLink := s.graphLinks.map (fun l =>
      { fromNodeId := l.fromNodeId, fromSlot := l.fromSlot,
        toNodeId := l.toNodeId, toSlot := l.toSlot, status := NStatus.pending })
    let incoming : List (String × List GraphLink) := s.graphLinks.foldl
      (fun m l => alistSet m l.toNodeId ((alistGet m l.toNodeId).getD [] ++ [l])) []
    let outgoing : List (String × List GraphLink) := s.graphLinks.foldl
      (fun m l => alistSet m l.fromNodeId ((alistGet m l.fromNodeId).getD [] ++ [l])) []
    let remainingDeps : List (String × Int) := workflowNodes.foldl
      (fun m n => alistSet m n.id (((alistGet incoming n.id).getD []).length : Int)) []
    let queue : List String :=
      (workflowNodes.filter (fun n => ((alistGet incoming n.id).getD []).length = 0)).map
        WfNode.id
    let startInputNodeIds : List String := queue.filter (fun id =>
      match workflowNodes.find? (fun n => n.id = id) with
      | none => false
      | some n => (toInputForms n s.nodeDefs).length > 0)
    let pendingItems : List PendingInputItem := startInputNodeIds.filterMap (fun id =>
      (workflowNodes.find? (fun n => n.id = id)).map (fun n =>
        { nodeId := id, nodeName := getNodeName n, form := toInputForms n s.nodeDefs,
          status := PStatus.pending, formValue := none }))
    let nextWorkflowNodes := workflowNodes.map (fun n =>
      if startInputNodeIds.contains n.id then { n with status := NStatus.waiting }
      else n)
    let s := { s with store := { s.store with
      nodes := nextWorkflowNodes, links := workflowLinks,
      pendingInputs := pendingItems } }
    let gen := s.nextGen
    let run : Run :=
      { incoming := incoming, outgoing := outgoing, remainingDeps := remainingDeps,
        results := [], queue := queue, isRunning := false,
        nodeDefinitions := s.nodeDefs, batchOutstanding := none,
        startOutstanding := none }
    let s := { s with runs := s.runs ++ [(gen, run)], activeGen := some gen,
                      nextGen := gen + 1 }
    let s := setGlobalStatus s GStatus.progressing
    let startNoInputNodeIds := queue.filter (fun id => !startInputNodeIds.contains id)
    let launched := launchTasks (updateRun s gen (fun r => { r with queue := [] }))
      startNoInputNodeIds (CallerCtx.startTask gen)
    let t := pendingLoopEntry launched.1
    if launched.2 = 0 then invokeRunQueue t
    else updateRun t gen (fun r => { r with startOutstanding := some launched.2 })

/-- `onRun` (workflowStore.ts lines 440-450): resume a paused run by
flipping the status and re-invoking `runQueue`; a no-op while progressing;
otherwise a fresh `executeWorkflow`. -/
def onRunStep (s : EngineState) : EngineState :=
  match s.store.workflowStatus with
  | GStatus.paused => invokeRunQueue (setGlobalStatus s GStatus.progressing)
  | GStatus.progressing => s
  | GStatus.stopped => executeWorkflowStep s

/-- `onPause` (workflowStore.ts lines 451-456). -/
def onPauseStep (s : EngineState) : EngineState :=
  if s.store.workflowStatus ≠ GStatus.progressing then s
  else setGlobalStatus s GStatus.paused

/-- `onStop` (workflowStore.ts lines 457-470): null the `activeRun`
reference, set the global status to `stopped`, discard the pending-input
items, reset every node to `PENDING` with cleared inputs and output (the
property values are kept, as in the source), and reset every link to
`PENDING`.  The run records stay in the heap — in the source the old objects
survive through the closures of still-outstanding continuations. -/
def onStopStep (s : EngineState) : EngineState :=
  { s with
    activeGen := none,
    store := { s.store with
      workflowStatus := GStatus.stopped,
      pendingInputs := [],
      nodes := s.store.nodes.map (fun n =>
        { n with status := NStatus.pending, inputFormValues := [],
                 outputValue := none }),
      links := s.store.links.map (fun l => { l with status := NStatus.pending }) } }

/-- `retryNodeInput` (workflowStore.ts lines 471-498) up to its `await`:
return unchanged when there is no active run, the node id is unknown, or
the node has incoming edges in the captured run; otherwise mark the node
`PROGRESSING`, upsert its pending item back to `"pending"` with the last
known form value (or one rebuilt from upstream outputs), and issue the
input request.  Note the guard does not inspect the node's status. -/
def retryNodeInput (s : EngineState) (nodeId : String) : EngineState :=
  match s.activeGen with
  | none => s
  | some gen =>
    match alistGet s.runs gen with
    | none => s
    | some run =>
      match s.store.nodes.find? (fun n => n.id = nodeId) with
      | none => s
      | some node =>
        if ((alistGet run.incoming nodeId).getD []).length > 0 then s
        else
          let pending := s.store.pendingInputs.find? (fun item => item.nodeId = nodeId)
          let formValue := match pending with
            | some p =>
              (match p.formValue with
              | some fv => fv
              | none => buildFormValueFromOutputs node run)
            | none => buildFormValueFromOutputs node run
          let inputForms := match pending with
            | some p => p.form
            | none => toInputForms node run.nodeDefinitions
          let s := setNodeStatus s nodeId NStatus.progressing
          let s := setPendingInputs s (fun items => upsertPendingInput items
            { nodeId := nodeId, nodeName := getNodeName node, form := inputForms,
              status := PStatus.pending, formValue := some formValue })
          issueFill s nodeId (Susp.retryFill gen node inputForms)

/-- The external events that drive the engine: the four control commands
(`retryInput` through its only caller, `onStatusDotClick` in `src/App.tsx`,
which ignores the click unless the node's published status is `WAITING`),
and the settlement — resolution or rejection — of an outstanding executor
call or input request.  The executor behaviour is unconstrained, following
spec §6 ("may take arbitrarily long; may throw"); events naming a promise
id that is not outstanding are ignored. -/
inductive Event
  | cmdRun
  | cmdPause
  | cmdStop
  | cmdRetry (nodeId : String)
  | execOk (cid : Nat) (v : JValue)
  | execErr (cid : Nat)
  | fillOk (cid : Nat) (values : ValMap)
  | fillErr (cid : Nat)

/-- One engine step: dispatch an external event to the corresponding entry
point or resumption. -/
def step (s : EngineState) (e : Event) : EngineState :=
  match e with
  | Event.cmdRun => onRunStep s
  | Event.cmdPause => onPauseStep s
  | Event.cmdStop => onStopStep s
  | Event.cmdRetry nodeId =>
    (match s.store.nodes.find? (fun n => n.id = nodeId) with
    | some n => if n.status = NStatus.waiting then retryNodeInput s nodeId else s
    | none => s)
  | Event.execOk cid v => resumeExecOk s cid v
  | Event.execErr cid => resumeExecErr s cid
  | Event.fillOk cid values => resumeFillOk s cid values
  | Event.fillErr cid => resumeFillErr s cid

/-- The initial engine state over a given graph snapshot and definition
registry: the store starts with the zustand initial state (empty arrays,
status `stopped`) and the App has registered the input resolver. -/
def initState (graphNodes : List GraphNode) (graphLinks : List GraphLink)
    (nodeDefs : List (Nat × NodeDef)) : EngineState :=
  { graphNodes := graphNodes, graphLinks := graphLinks, nodeDefs := nodeDefs,
    store := { nodes := [], links := [], pendingInputs := [],
               workflowStatus := GStatus.stopped, fillRegistered := true },
    runs := [], activeGen := none, nextGen := 0, susps := [], nextCid := 0,
    log := [] }

/-- Run a trace of external events from the initial state. -/
def runTrace (graphNodes : List GraphNode) (graphLinks : List GraphLink)
    (nodeDefs : List (Nat × NodeDef)) (events : List Event) : EngineState :=
  events.foldl step (initState graphNodes graphLinks nodeDefs)

/-- Is an input request for `nodeId` still outstanding? -/
def outstandingFillFor (s : EngineState) (nodeId : String) : Bool :=
  s.susps.any (fun p => match p.2 with
    | Susp.nodeFill n _ _ => n.id = nodeId
    | Susp.retryFill _ n _ => n.id = nodeId
    | _ => false)

/-- The published status of a node. -/
def nodeStatusOf (s : EngineState) (nodeId : String) : Option NStatus :=
  (s.store.nodes.find? (fun n => n.id = nodeId)).map WfNode.status

/-! ## The input modal (`src/components/WorkflowInputModal/index.tsx`)

The Input Resolver's modal validates the user's entries in `handleSubmit`
before resolving the engine's request.  We embed the `fields` flattening and
the per-field loop body of `handleSubmit` (lines 349-424); `JSON.parse` is
external and becomes an oracle argument (`none` models a throw). -/

/-- The field list the modal iterates over (`fields`, index.tsx lines
131-141): the forms flattened in order, each field keyed
`"{formIndex}:{name}"` (`getFieldKey`, line 35). -/
def modalFields (inputForms : List InputForm) : List (String × InputField) :=
  (inputForms.enum.map (fun fi =>
    fi.2.map (fun input => (toString fi.1 ++ ":" ++ input.name, input)))).flatten

/-- `value === undefined || value === null || String(value).trim() === ""`,
the emptiness test `handleSubmit` repeats for `object`, single-`select` and
default-typed fields. -/
def jsBlankValue (v : JValue) : Bool :=
  match v with
  | JValue.undef => true
  | JValue.jnull => true
  | v => blankString (jsToString v)

/-- `input.max && listValue.length > input.max`: the modal's cap test (a
`max` of `0` or `undefined` is falsy and disables the cap). -/
def maxExceeded (max : Option Nat) (len : Nat) : Bool :=
  match max with
  | some m => if m = 0 then false else decide (len > m)
  | none => false

/-- One iteration of the `handleSubmit` field loop (index.tsx lines
354-415), transforming the `(nextValues, nextErrors)` accumulator.  Reads
the field's current value from the accumulated map, then follows the
source's branches: `object` parses strings via the `jsonParse` oracle;
`images` normalises to a list, caps it, and always writes the list back;
`select` with `max === 1` only re-checks requiredness, otherwise the list
length is capped and checked, nothing written; every other type gets only
the requiredness check (where an empty array also counts as missing). -/
def validateField (jsonParse : String → Option JValue)
    (acc : ValMap × List (String × String)) (field : String × InputField) :
    ValMap × List (String × String) :=
  let nextValues := acc.1
  let nextErrors := acc.2
  let key := field.1
  let input := field.2
  let value := ValMap.get nextValues key
  match input.type with
  | SlotType.object =>
    if jsBlankValue value then
      if input.required then (nextValues, alistSet nextErrors key "必填")
      else (nextValues, nextErrors)
    else
      match value with
      | JValue.jstr str =>
        match jsonParse str with
        | some v => (ValMap.set nextValues key v, nextErrors)
        | none => (nextValues, alistSet nextErrors key "JSON 格式错误")
      | v => (ValMap.set nextValues key v, nextErrors)
  | SlotType.images =>
    let listValue : List JValue := match value with
      | JValue.jarr xs => xs
      | v => if truthy v then [v] else []
    if maxExceeded input.max listValue.length then
      (nextValues, alistSet nextErrors key
        ("最多上传 " ++ toString (input.max.getD 0) ++ " 张"))
    else if input.required && listValue.isEmpty then
      (ValMap.set nextValues key (JValue.jarr listValue),
       alistSet nextErrors key "必填")
    else
      (ValMap.set nextValues key (JValue.jarr listValue), nextErrors)
  | SlotType.select =>
    if input.max = some 1 then
      if input.required ∧ jsBlankValue value then
        (nextValues, alistSet nextErrors key "必填")
      else (nextValues, nextErrors)
    else
      let listValue : List JValue := match value with
        | JValue.jarr xs => xs
        | _ => []
      if maxExceeded input.max listValue.length then
        (nextValues, alistSet nextErrors key
          ("最多选择 " ++ toString (input.max.getD 0) ++ " 项"))
      else if input.required && listValue.isEmpty then
        (nextValues, alistSet nextErrors key "必填")
      else (nextValues, nextErrors)
  | _ =>
    if !input.required then (nextValues, nextErrors)
    else
      let missing : Bool := match value with
        | JValue.jarr [] => true
        | v => jsBlankValue v
      if missing then (nextValues, alistSet nextErrors key "必填")
      else (nextValues, nextErrors)

/-- `handleSubmit` (index.tsx lines 349-424): run the field loop over all
fields in order; submission succeeds — the corrected value map is passed to
`onSubmit` and resolves the engine's request — exactly when no error was
recorded. -/
def handleSubmit (jsonParse : String → Option JValue)
    (inputForms : List InputForm) (values : ValMap) : Option ValMap :=
  let r := (modalFields inputForms).foldl (validateField jsonParse) (values, [])
  if r.2.length > 0 then none else some r.1

/-! ## Concrete scenario fixtures

A small registry of node definitions and graph builders used by the
scenario theorems: definition 1 has no input ports, definition 2 has one
required string input (`prompt`), definition 3 has one optional multi-select
input (`s`) with a maximum of two selections. -/

/-- Definition 1: a node with no input ports. -/
def defNoInput : NodeDef :=
  { id := 1, executionId := "e1", title := some "noop", inputs := [] }

/-- The required string input port of definition 2. -/
def promptField : InputField :=
  { name := "prompt", type := SlotType.string, required := true, max := none,
    label := none, options := [] }

/-- Definition 2: one required string input. -/
def defTextInput : NodeDef :=
  { id := 2, executionId := "e2", title := some "text", inputs := [promptField] }

/-- The optional multi-select input port of definition 3, capped at two
selections. -/
def selectField : InputField :=
  { name := "s", type := SlotType.select, required := false, max := some 2,
    label := none, options := ["a", "b", "c"] }

/-- Definition 3: one optional multi-select input with `max = 2`. -/
def defSelect : NodeDef :=
  { id := 3, executionId := "e3", title := some "sel", inputs := [selectField] }

/-- The definition registry of the scenarios. -/
def theDefs : List (Nat × NodeDef) :=
  [(1, defNoInput), (2, defTextInput), (3, defSelect)]

/-- A graph node referencing definition `defId`. -/
def mkGNode (id : String) (defId : Nat) : GraphNode :=
  { id := id, nodeId := defId, executionId := toString defId, title := some id,
    properties := [] }

/-- A graph link from `a`'s output slot 0 to `b`'s input slot 0. -/
def mkLink (a b : String) : GraphLink :=
  { fromNodeId := a, fromSlot := 0, toNodeId := b, toSlot := 0 }

/-- The statuses a single step may leave on a link: a freshly written
`PENDING` (the run-start and stop resets), a freshly written `DONE` (source
node completion), or a status some link already carried before the step —
the engine never assigns `ERROR`, `PROGRESSING`, `WAITING` or `PAUSED` to a
link. -/
def LinkTame (old : List WfLink) (l : WfLink) : Prop :=
  l.status = NStatus.pending ∨ l.status = NStatus.done ∨
    l.status ∈ old.map WfLink.status

/-! ## Concrete scenario states

The engine evaluated on the scenario traces the claim theorems refer to.
Promise ids in the event lists follow the allocation order of `nextCid`. -/

/-- Scenario C: `N1 → N2`, `N1`'s executor rejects (after `run`, the single
outstanding executor promise — id 0 — rejects). -/
def c1Final : EngineState :=
  runTrace [mkGNode "N1" 1, mkGNode "N2" 1] [mkLink "N1" "N2"] theDefs
    [Event.cmdRun, Event.execErr 0]

/-- `N1 → N2`; run, stop, run again, then the *first* run's executor call
for `N1` (promise id 0) resolves, followed by the second run's own call
(promise id 1). -/
def c2Final : EngineState :=
  runTrace [mkGNode "N1" 1, mkGNode "N2" 1] [mkLink "N1" "N2"] theDefs
    [Event.cmdRun, Event.cmdStop, Event.cmdRun,
     Event.execOk 0 (JValue.jstr "v0"), Event.execOk 1 (JValue.jstr "v1")]

/-- `N1 → N3`, `N2 → N3`; run, stop, run again, then the first run's stale
executor completion for `N1` (promise id 0) arrives, followed by the second
run's own `N1` completion (promise id 2). -/
def c3Final : EngineState :=
  runTrace [mkGNode "N1" 1, mkGNode "N2" 1, mkGNode "N3" 1]
    [mkLink "N1" "N3", mkLink "N2" "N3"] theDefs
    [Event.cmdRun, Event.cmdStop, Event.cmdRun,
     Event.execOk 0 (JValue.jstr "v0"), Event.execOk 2 (JValue.jstr "v2")]

/-- `N1 → N2` after a single `run`: `N1` is `PROGRESSING`. -/
def c5aFinal : EngineState :=
  runTrace [mkGNode "N1" 1, mkGNode "N2" 1] [mkLink "N1" "N2"] theDefs
    [Event.cmdRun]

/-- Form node `F → X`; run, stop, run again; the second run's input request
(promise id 1) resolves and its executor call (promise id 2) succeeds, so
`F` is `DONE` with its link `DONE`; then the *first* run's input request
(promise id 0) rejects, whose `catch` re-marks `F` as `WAITING`. -/
def c5bFinal : EngineState :=
  runTrace [mkGNode "F" 2, mkGNode "X" 1] [mkLink "F" "X"] theDefs
    [Event.cmdRun, Event.cmdStop, Event.cmdRun,
     Event.fillOk 1 [("0:prompt", JValue.jstr "hi")],
     Event.execOk 2 (JValue.jstr "out"), Event.fillErr 0]

/-- Two form nodes `F1`, `F2` with no links; a single `run` command. -/
def c6Final : EngineState :=
  runTrace [mkGNode "F1" 2, mkGNode "F2" 2] [] theDefs [Event.cmdRun]

/-- A single form node `F1` after `run`: its input request is outstanding. -/
def c7CexFinal : EngineState :=
  runTrace [mkGNode "F1" 2] [] theDefs [Event.cmdRun]

/-- Scenario D: chains `A1 → A2` (A1 a form node) and `B1 → B2` (no forms);
after `run`, `B1`'s executor (promise id 0) and then `B2`'s (promise id 2)
resolve while `A1`'s input request (promise id 1) stays outstanding. -/
def c7DFinal : EngineState :=
  runTrace [mkGNode "A1" 2, mkGNode "A2" 1, mkGNode "B1" 1, mkGNode "B2" 1]
    [mkLink "A1" "A2", mkLink "B1" "B2"] theDefs
    [Event.cmdRun, Event.execOk 0 (JValue.jstr "b1"),
     Event.execOk 2 (JValue.jstr "b2")]

/-- `N1 → N2` where `N2`'s definition has the multi-select input capped at
two selections; `N1`'s executor resolves with a three-element array, which
flows into `N2`'s resolved inputs via the link. -/
def c8CexFinal : EngineState :=
  runTrace [mkGNode "N1" 1, mkGNode "N2" 3] [mkLink "N1" "N2"] theDefs
    [Event.cmdRun,
     Event.execOk 0 (JValue.jarr [JValue.jstr "a", JValue.jstr "b", JValue.jstr "c"])]

/-- A single no-input node `N1`; run, stop, run again, then the *first*
run's executor call (promise id 0) resolves with `"old"` while the second
run's own call (promise id 1) is still outstanding. -/
def c9Final : EngineState :=
  runTrace [mkGNode "N1" 1] [] theDefs
    [Event.cmdRun, Event.cmdStop, Event.cmdRun, Event.execOk 0 (JValue.jstr "old")]

/-- A single no-input node `N1`; run, stop, then the stale executor call
resolves with no run active at all. -/
def c9bFinal : EngineState :=
  runTrace [mkGNode "N1" 1] [] theDefs
    [Event.cmdRun, Event.cmdStop, Event.execOk 0 (JValue.jstr "old")]

/-- A single form node `F` driven to `DONE` while the run record stays
active: run (input request 0 issued), the request resolves, the executor
call (promise id 1) succeeds. -/
def c10DoneState : EngineState :=
  runTrace [mkGNode "F" 2] [] theDefs
    [Event.cmdRun, Event.fillOk 0 [("0:prompt", JValue.jstr "x")],
     Event.execOk 1 (JValue.jstr "y")]

/-- A single form node `F1`; run, then its input request (promise id 0)
rejects (the modal is dismissed). -/
def c7RejFinal : EngineState :=
  runTrace [mkGNode "F1" 2] [] theDefs [Event.cmdRun, Event.fillErr 0]

/-- Two form nodes `G1`, `G2`; after `run`, `G1` is being processed and `G2`
still sits at its run-start marking. -/
def c7StartFinal : EngineState :=
  runTrace [mkGNode "G1" 2, mkGNode "G2" 2] [] theDefs [Event.cmdRun]

/-! ## Support lemmas -/

/-- The upserted item is a member of the result of `upsertPendingInput`. -/
theorem mem_upsertPendingInput (items : List PendingInputItem)
    (it : PendingInputItem) : it ∈ upsertPendingInput items it := by
  unfold upsertPendingInput
  split
  · rename_i h
    rw [List.any_eq_true] at h
    obtain ⟨x, hx, hx2⟩ := h
    rw [List.mem_map]
    refine ⟨x, hx, ?_⟩
    rw [if_pos (of_decide_eq_true hx2)]
  · exact List.mem_append_right _ (List.mem_singleton.mpr rfl)

/-- `find?` by key commutes with the overwrite `map` of `ValMap.set` for a
different key. -/
theorem find_map_set_ne (m : ValMap) (k k2 : String) (v : JValue)
    (h : k ≠ k2) :
    (m.map (fun p => if p.1 = k2 then (k2, v) else p)).find?
        (fun p => p.1 = k) = m.find? (fun p => p.1 = k) := by
  induction m with
  | nil => rfl
  | cons p t ih =>
    simp only [List.map_cons]
    by_cases hp : p.1 = k2
    · rw [if_pos hp]
      rw [List.find?_cons_of_neg _ (by
        simp only [decide_eq_true_eq]
        exact fun hh => h hh.symm)]
      rw [List.find?_cons_of_neg _ (by
        simp only [decide_eq_true_eq]
        rw [hp]
        exact fun hh => h hh.symm)]
      exact ih
    · rw [if_neg hp]
      by_cases hk : p.1 = k
      · rw [List.find?_cons_of_pos _ (by simp only [decide_eq_true_eq]; exact hk)]
        rw [List.find?_cons_of_pos _ (by simp only [decide_eq_true_eq]; exact hk)]
      · rw [List.find?_cons_of_neg _ (by simp only [decide_eq_true_eq]; exact hk)]
        rw [List.find?_cons_of_neg _ (by simp only [decide_eq_true_eq]; exact hk)]
        exact ih

/-- Appending a binding for a different key does not change `find?` by
key. -/
theorem find_append_single_ne (m : ValMap) (k k2 : String) (v : JValue)
    (h : k ≠ k2) :
    (m ++ [(k2, v)]).find? (fun p => p.1 = k) = m.find? (fun p => p.1 = k) := by
  rw [List.find?_append]
  cases hf : m.find? (fun p => decide (p.1 = k)) with
  | some p => rfl
  | none =>
    have h1 : ([(k2, v)] : ValMap).find? (fun p => decide (p.1 = k)) = none := by
      rw [List.find?_cons_of_neg _ (by
        simp only [decide_eq_true_eq]
        exact fun hh => h hh.symm)]
      rfl
    rw [h1]
    rfl

/-- `ValMap.get` after `ValMap.set` at a different key reads the old
binding. -/
theorem valMap_get_set_ne (m : ValMap) (k k2 : String) (v : JValue)
    (h : k ≠ k2) : ValMap.get (ValMap.set m k2 v) k = ValMap.get m k := by
  unfold ValMap.set
  split
  · unfold ValMap.get
    rw [find_map_set_ne m k k2 v h]
  · unfold ValMap.get
    rw [find_append_single_ne m k k2 v h]

/-- `alistSet` never returns the empty list. -/
theorem alistSet_ne_nil {κ α : Type} [DecidableEq κ] (m : List (κ × α))
    (k : κ) (v : α) : alistSet m k v ≠ [] := by
  unfold alistSet
  split
  · rename_i hany
    intro hnil
    rw [List.map_eq_nil_iff] at hnil
    subst hnil
    simp at hany
  · intro hnil
    rw [List.append_eq_nil] at hnil
    exact List.cons_ne_nil _ _ hnil.2

/-- One field-loop iteration either keeps the value map or overwrites the
field's own key. -/
theorem validateField_values_shape (j : String → Option JValue)
    (acc : ValMap × List (String × String)) (f : String × InputField) :
    (validateField j acc f).1 = acc.1 ∨
    ∃ v, (validateField j acc f).1 = ValMap.set acc.1 f.1 v := by
  unfold validateField
  dsimp only
  repeat' first
    | exact Or.inl rfl
    | exact Or.inr ⟨_, rfl⟩
    | split

/-- One field-loop iteration either keeps the error record or sets the
field's own key in it. -/
theorem validateField_errors_shape (j : String → Option JValue)
    (acc : ValMap × List (String × String)) (f : String × InputField) :
    (validateField j acc f).2 = acc.2 ∨
    ∃ k v, (validateField j acc f).2 = alistSet acc.2 k v := by
  unfold validateField
  dsimp only
  repeat' first
    | exact Or.inl rfl
    | exact Or.inr ⟨_, _, rfl⟩
    | split

/-- A field-loop iteration leaves every other key of the value map
unchanged. -/
theorem validateField_get_ne (j : String → Option JValue)
    (acc : ValMap × List (String × String)) (f : String × InputField)
    (k : String) (h : k ≠ f.1) :
    ValMap.get (validateField j acc f).1 k = ValMap.get acc.1 k := by
  rcases validateField_values_shape j acc f with h1 | ⟨v, h1⟩
  · rw [h1]
  · rw [h1]
    exact valMap_get_set_ne acc.1 k f.1 v h

/-- The field loop leaves a key none of its fields own unchanged. -/
theorem foldl_validateField_get (j : String → Option JValue)
    (l : List (String × InputField)) (acc : ValMap × List (String × String))
    (k : String) (h : ∀ f ∈ l, k ≠ f.1) :
    ValMap.get (l.foldl (validateField j) acc).1 k = ValMap.get acc.1 k := by
  induction l generalizing acc with
  | nil => rfl
  | cons f t ih =>
    rw [List.foldl_cons]
    rw [ih (validateField j acc f) (fun g hg => h g (List.mem_cons_of_mem f hg))]
    exact validateField_get_ne j acc f k (h f (List.mem_cons_self f t))

/-- Once an error is recorded the field loop never clears the error
record. -/
theorem foldl_validateField_errors_ne_nil (j : String → Option JValue)
    (l : List (String × InputField)) (acc : ValMap × List (String × String))
    (h : acc.2 ≠ []) : (l.foldl (validateField j) acc).2 ≠ [] := by
  induction l generalizing acc with
  | nil => exact h
  | cons f t ih =>
    rw [List.foldl_cons]
    apply ih
    rcases validateField_errors_shape j acc f with h1 | ⟨k, v, h1⟩
    · rw [h1]; exact h
    · rw [h1]; exact alistSet_ne_nil acc.2 k v

/-- The `select` branch of the field loop never writes the value map. -/
theorem validateField_select_values (j : String → Option JValue)
    (acc : ValMap × List (String × String)) (key : String)
    (input : InputField) (htype : input.type = SlotType.select) :
    (validateField j acc (key, input)).1 = acc.1 := by
  unfold validateField
  dsimp only
  rw [htype]
  dsimp only
  repeat' first
    | rfl
    | split

/-- A multi-select value longer than its cap makes the field loop record the
cap error at the field's key. -/
theorem validateField_select_cap (j : String → Option JValue)
    (acc : ValMap × List (String × String)) (key : String)
    (input : InputField) (m : Nat) (xs : List JValue)
    (htype : input.type = SlotType.select) (hmax : input.max = some m)
    (hm0 : m ≠ 0) (hm1 : m ≠ 1)
    (hxs : ValMap.get acc.1 key = JValue.jarr xs) (hgt : m < xs.length) :
    (validateField j acc (key, input)).2 =
      alistSet acc.2 key ("最多选择 " ++ toString m ++ " 项") := by
  have hne1 : ¬ input.max = some 1 := by
    rw [hmax]
    exact fun hh => hm1 (Option.some.inj hh)
  have hexc : maxExceeded input.max xs.length = true := by
    rw [hmax]
    unfold maxExceeded
    dsimp only
    rw [if_neg hm0]
    exact decide_eq_true hgt
  unfold validateField
  dsimp only
  rw [htype]
  dsimp only
  rw [if_neg hne1]
  rw [hxs]
  dsimp only
  rw [if_pos hexc]
  rw [hmax]
  rfl

/-! ## Link write discipline

A chain of lemmas showing which parts of the dynamics can touch link
statuses: everything except the completion update (`publishNodeDone`) and
the two resets (run start, stop) leaves the link list unchanged, and those
three write only `DONE` resp. `PENDING`. -/

/-- Any link list is tame over itself. -/
theorem linkTame_of_links_eq {ls1 ls2 : List WfLink} (h : ls2 = ls1) :
    ∀ l ∈ ls2, LinkTame ls1 l := by
  subst h
  intro l hl
  exact Or.inr (Or.inr (List.mem_map_of_mem WfLink.status hl))

/-- A fold whose step preserves the link list preserves the link list. -/
theorem links_eq_foldl {α : Type} (f : EngineState → α → EngineState)
    (hf : ∀ s x, (f s x).store.links = s.store.links) :
    ∀ (xs : List α) (s : EngineState), (xs.foldl f s).store.links = s.store.links := by
  intro xs
  induction xs with
  | nil => intro s; rfl
  | cons x xs ih =>
    intro s
    rw [List.foldl_cons, ih, hf]

/-- `propagateDeps` never touches links. -/
theorem links_eq_propagateDeps (s : EngineState) (gen : Nat) (nodeId : String) :
    (propagateDeps s gen nodeId).store.links = s.store.links := by
  unfold propagateDeps
  cases alistGet s.runs gen with
  | none => rfl
  | some run =>
    refine links_eq_foldl _ ?_ _ s
    intro t link
    cases alistGet t.runs gen with
    | none => rfl
    | some run2 =>
      dsimp only
      split <;> rfl

/-- `launchNode` never touches links. -/
theorem links_eq_launchNode (s : EngineState) (node : WfNode) (ctx : CallerCtx) :
    (launchNode s node ctx).1.store.links = s.store.links := by
  unfold launchNode
  cases activeRun s with
  | none => rfl
  | some run =>
    dsimp only
    split
    · split <;> rfl
    · split <;> rfl

/-- One launched task never touches links. -/
theorem links_eq_launchTaskStep (ctx : CallerCtx) (acc : EngineState × Nat)
    (id : String) :
    (launchTaskStep ctx acc id).1.store.links = acc.1.store.links := by
  unfold launchTaskStep
  cases acc.1.store.nodes.find? (fun n => n.id = id) with
  | none => rfl
  | some node =>
    dsimp only
    have h := links_eq_launchNode acc.1 node ctx
    cases (launchNode acc.1 node ctx).2 <;> exact h

/-- `launchTasks` never touches links. -/
theorem links_eq_launchTasks (s : EngineState) (ids : List String)
    (ctx : CallerCtx) :
    (launchTasks s ids ctx).1.store.links = s.store.links := by
  unfold launchTasks
  have key : ∀ (xs : List String) (acc : EngineState × Nat),
      ((xs.foldl (launchTaskStep ctx) acc).1).store.links = acc.1.store.links := by
    intro xs
    induction xs with
    | nil => intro acc; rfl
    | cons x xs ih =>
      intro acc
      rw [List.foldl_cons, ih, links_eq_launchTaskStep]
  exact key ids (s, 0)

/-- The `runQueue` loop never touches links. -/
theorem links_eq_runQueueGo (gen : Nat) :
    ∀ (fuel : Nat) (s : EngineState),
      (runQueueGo s gen fuel).store.links = s.store.links := by
  intro fuel
  induction fuel with
  | zero => intro s; rfl
  | succ n ih =>
    intro s
    unfold runQueueGo
    cases alistGet s.runs gen with
    | none => rfl
    | some run =>
      dsimp only
      split
      · split <;> rfl
      · split
        · rfl
        · split
          · rw [ih]
            exact links_eq_launchTasks _ _ _
          · exact links_eq_launchTasks _ _ _

/-- `runQueue` invocation never touches links. -/
theorem links_eq_invokeRunQueue (s : EngineState) :
    (invokeRunQueue s).store.links = s.store.links := by
  unfold invokeRunQueue
  cases s.activeGen with
  | none => rfl
  | some gen =>
    dsimp only
    cases alistGet s.runs gen with
    | none => rfl
    | some run =>
      dsimp only
      split
      · rfl
      · exact links_eq_runQueueGo _ _ _

/-- `handleNodeSuccess` never touches links. -/
theorem links_eq_handleNodeSuccess (s : EngineState) (nodeId : String) :
    (handleNodeSuccess s nodeId).store.links = s.store.links := by
  unfold handleNodeSuccess
  cases s.activeGen with
  | none => rfl
  | some gen =>
    dsimp only
    cases alistGet (propagateDeps s gen nodeId).runs gen with
    | none => exact links_eq_propagateDeps s gen nodeId
    | some run =>
      dsimp only
      split
      · rw [links_eq_invokeRunQueue, links_eq_propagateDeps]
      · exact links_eq_propagateDeps s gen nodeId

/-- The `processPendingInputs` loop never touches links. -/
theorem links_eq_pendingLoopGo :
    ∀ (fuel : Nat) (s : EngineState),
      (pendingLoopGo s fuel).store.links = s.store.links := by
  intro fuel
  induction fuel with
  | zero => intro s; rfl
  | succ n ih =>
    intro s
    unfold pendingLoopGo
    cases s.store.pendingInputs.find? (fun item => item.status = PStatus.pending) with
    | none => rfl
    | some item =>
      dsimp only
      cases s.store.nodes.find? (fun nd => nd.id = item.nodeId) with
      | none => rfl
      | some node =>
        dsimp only
        have hL := links_eq_launchNode s node CallerCtx.pendingLoop
        cases (launchNode s node CallerCtx.pendingLoop).2 with
        | none => exact hL
        | some o =>
          dsimp only
          set t := (if o = Outcome.success then
              handleNodeSuccess (launchNode s node CallerCtx.pendingLoop).1 item.nodeId
            else (launchNode s node CallerCtx.pendingLoop).1) with hT
          have ht : t.store.links = s.store.links := by
            rw [hT]
            split
            · rw [links_eq_handleNodeSuccess]; exact hL
            · exact hL
          split
          · exact ht
          · rw [ih]; exact ht

/-- `processPendingInputs` entry never touches links. -/
theorem links_eq_pendingLoopEntry (s : EngineState) :
    (pendingLoopEntry s).store.links = s.store.links := by
  unfold pendingLoopEntry
  split
  · rfl
  · rw [links_eq_pendingLoopGo]

/-- The retry drain loop never touches links. -/
theorem links_eq_drainLoopGo (gen : Nat) (retryId : String) :
    ∀ (fuel : Nat) (s : EngineState),
      (drainLoopGo s gen retryId fuel).store.links = s.store.links := by
  intro fuel
  induction fuel with
  | zero => intro s; rfl
  | succ n ih =>
    intro s
    unfold drainLoopGo
    cases alistGet s.runs gen with
    | none => rfl
    | some run =>
      dsimp only
      cases run.queue with
      | nil => rfl
      | cons id rest =>
        dsimp only
        cases (updateRun s gen fun r => { r with queue := rest }).store.nodes.find?
            (fun nd => nd.id = id) with
        | none => rw [ih]; rfl
        | some node =>
          dsimp only
          have hL := links_eq_launchNode
            (updateRun s gen fun r => { r with queue := rest }) node
            (CallerCtx.retryDrain gen retryId)
          cases (launchNode (updateRun s gen fun r => { r with queue := rest }) node
              (CallerCtx.retryDrain gen retryId)).2 with
          | none => exact hL
          | some o =>
            dsimp only
            split
            · rw [ih, links_eq_propagateDeps]; exact hL
            · rw [ih]; exact hL

/-- Delivering an outcome to the awaiting caller never touches links. -/
theorem links_eq_settleCtx (s : EngineState) (ctx : CallerCtx) (nodeId : String)
    (o : Outcome) :
    (settleCtx s ctx nodeId o).store.links = s.store.links := by
  cases ctx with
  | startTask gen =>
    unfold settleCtx
    dsimp only
    set t := (if o = Outcome.success then handleNodeSuccess s nodeId else s) with hT
    have ht : t.store.links = s.store.links := by
      rw [hT]
      split
      · exact links_eq_handleNodeSuccess s nodeId
      · rfl
    cases alistGet t.runs gen with
    | none => exact ht
    | some run =>
      dsimp only
      cases run.startOutstanding with
      | none =>
        dsimp only
        split <;> exact ht
      | some k =>
        cases k with
        | zero =>
          dsimp only
          split <;> exact ht
        | succ k =>
          dsimp only
          split
          · exact ht
          · split
            · exact (links_eq_invokeRunQueue _).trans ht
            · exact ht
  | batchTask gen =>
    unfold settleCtx
    dsimp only
    set t := (if o = Outcome.success then handleNodeSuccess s nodeId else s) with hT
    have ht : t.store.links = s.store.links := by
      rw [hT]
      split
      · exact links_eq_handleNodeSuccess s nodeId
      · rfl
    cases alistGet t.runs gen with
    | none => exact ht
    | some run =>
      dsimp only
      cases run.batchOutstanding with
      | none =>
        dsimp only
        split <;> exact ht
      | some k =>
        cases k with
        | zero =>
          dsimp only
          split <;> exact ht
        | succ k =>
          dsimp only
          split
          · exact ht
          · split
            · cases alistGet (updateRun t gen
                  (fun r => { r with batchOutstanding := none })).runs gen with
              | none => exact ht
              | some run2 => exact (links_eq_runQueueGo _ _ _).trans ht
            · exact ht
  | pendingLoop =>
    unfold settleCtx
    dsimp only
    split
    · rfl
    · set t := (if o = Outcome.success then handleNodeSuccess s nodeId else s) with hT
      have ht : t.store.links = s.store.links := by
        rw [hT]
        split
        · exact links_eq_handleNodeSuccess s nodeId
        · rfl
      split
      · exact ht
      · exact (links_eq_pendingLoopGo _ _).trans ht
  | retryDrain gen retryId =>
    unfold settleCtx
    dsimp only
    split
    · rfl
    · set t := (if o = Outcome.success then propagateDeps s gen nodeId else s) with hT
      have ht : t.store.links = s.store.links := by
        rw [hT]
        split
        · exact links_eq_propagateDeps s gen nodeId
        · rfl
      cases alistGet t.runs gen with
      | none => exact ht
      | some run => exact (links_eq_drainLoopGo _ _ _ _).trans ht

/-- An executor rejection never touches links. -/
theorem links_eq_resumeExecErr (s : EngineState) (cid : Nat) :
    (resumeExecErr s cid).store.links = s.store.links := by
  unfold resumeExecErr
  cases alistGet s.susps cid with
  | none => rfl
  | some susp =>
    cases susp with
    | nodeExec node site ctx =>
      dsimp only
      cases site with
      | execIncoming => rw [links_eq_settleCtx]; rfl
      | execNoForm => rw [links_eq_settleCtx]; rfl
      | execAfterFill values => rw [links_eq_settleCtx]; rfl
    | nodeFill node inputForms ctx => rfl
    | retryFill gen node inputForms => rfl
    | retryExec gen node values => rfl

/-- An input-request resolution never touches links. -/
theorem links_eq_resumeFillOk (s : EngineState) (cid : Nat) (values : ValMap) :
    (resumeFillOk s cid values).store.links = s.store.links := by
  unfold resumeFillOk
  cases alistGet s.susps cid with
  | none => rfl
  | some susp =>
    cases susp with
    | nodeExec node site ctx => rfl
    | nodeFill node inputForms ctx =>
      dsimp only
      split
      · rw [links_eq_settleCtx]; rfl
      · rfl
    | retryFill gen node inputForms =>
      dsimp only
      split <;> rfl
    | retryExec gen node vs => rfl

/-- An input-request rejection never touches links. -/
theorem links_eq_resumeFillErr (s : EngineState) (cid : Nat) :
    (resumeFillErr s cid).store.links = s.store.links := by
  unfold resumeFillErr
  cases alistGet s.susps cid with
  | none => rfl
  | some susp =>
    cases susp with
    | nodeExec node site ctx => rfl
    | nodeFill node inputForms ctx => rw [links_eq_settleCtx]; rfl
    | retryFill gen node inputForms => rfl
    | retryExec gen node values => rfl

/-- `retryNodeInput` never touches links. -/
theorem links_eq_retryNodeInput (s : EngineState) (nodeId : String) :
    (retryNodeInput s nodeId).store.links = s.store.links := by
  unfold retryNodeInput
  cases s.activeGen with
  | none => rfl
  | some gen =>
    dsimp only
    cases alistGet s.runs gen with
    | none => rfl
    | some run =>
      dsimp only
      cases s.store.nodes.find? (fun n => n.id = nodeId) with
      | none => rfl
      | some node =>
        dsimp only
        split <;> rfl

/-- The completion update writes `DONE` on the node's outgoing links and
leaves every other link untouched. -/
theorem linkTame_publishNodeDone (s : EngineState) (nodeId : String)
    (f : WfNode → WfNode) :
    ∀ l ∈ (publishNodeDone s nodeId f).store.links, LinkTame s.store.links l := by
  intro l hl
  have hl2 : l ∈ s.store.links.map (fun l =>
      if l.fromNodeId = nodeId then { l with status := NStatus.done } else l) := hl
  rw [List.mem_map] at hl2
  obtain ⟨l0, hl0, rfl⟩ := hl2
  by_cases h : l0.fromNodeId = nodeId
  · rw [if_pos h]
    exact Or.inr (Or.inl rfl)
  · rw [if_neg h]
    exact Or.inr (Or.inr (List.mem_map_of_mem WfLink.status hl0))

/-- An executor resolution writes only `DONE` link statuses (through the
completion update); everything else it does leaves links unchanged. -/
theorem linkTame_resumeExecOk (s : EngineState) (cid : Nat) (v : JValue) :
    ∀ l ∈ (resumeExecOk s cid v).store.links, LinkTame s.store.links l := by
  unfold resumeExecOk
  cases alistGet s.susps cid with
  | none => exact linkTame_of_links_eq rfl
  | some susp =>
    cases susp with
    | nodeExec node site ctx =>
      dsimp only
      cases site with
      | execIncoming =>
        cases (removeCid s cid).activeGen with
        | none =>
          exact linkTame_of_links_eq (by rw [links_eq_settleCtx]; rfl)
        | some gen =>
          dsimp only
          intro l hl
          rw [links_eq_settleCtx] at hl
          exact linkTame_publishNodeDone _ node.id _ l hl
      | execNoForm =>
        cases (removeCid s cid).activeGen with
        | none =>
          exact linkTame_of_links_eq (by rw [links_eq_settleCtx]; rfl)
        | some gen =>
          dsimp only
          intro l hl
          rw [links_eq_settleCtx] at hl
          exact linkTame_publishNodeDone _ node.id _ l hl
      | execAfterFill values =>
        cases (removeCid s cid).activeGen with
        | none =>
          exact linkTame_of_links_eq (by rw [links_eq_settleCtx]; rfl)
        | some gen =>
          dsimp only
          intro l hl
          rw [links_eq_settleCtx] at hl
          exact linkTame_publishNodeDone _ node.id _ l hl
    | nodeFill node inputForms ctx => exact linkTame_of_links_eq rfl
    | retryFill gen node inputForms => exact linkTame_of_links_eq rfl
    | retryExec gen node values =>
      dsimp only
      intro l hl
      have base : l ∈ (propagateDeps (setPendingInputs
          (publishNodeDone (updateRun (removeCid s cid) gen
            (fun r => { r with results := alistSet r.results node.id v }))
            node.id (fun n =>
              { n with inputFormValues := values, outputValue := some v }))
          (fun items => updatePendingInputStatus items node.id PStatus.done))
          gen node.id).store.links → LinkTame s.store.links l := by
        intro hm
        rw [links_eq_propagateDeps] at hm
        exact linkTame_publishNodeDone _ node.id _ l hm
      cases halist : alistGet (propagateDeps (setPendingInputs
          (publishNodeDone (updateRun (removeCid s cid) gen
            (fun r => { r with results := alistSet r.results node.id v }))
            node.id (fun n =>
              { n with inputFormValues := values, outputValue := some v }))
          (fun items => updatePendingInputStatus items node.id PStatus.done))
          gen node.id).runs gen with
      | none =>
        rw [halist] at hl
        exact base hl
      | some run =>
        rw [halist] at hl
        dsimp only at hl
        by_cases hr : run.isRunning
        · rw [if_pos hr] at hl
          exact base hl
        · rw [if_neg hr] at hl
          rw [links_eq_drainLoopGo] at hl
          exact base hl

/-- `stop` writes only `PENDING` link statuses. -/
theorem linkTame_onStopStep (s : EngineState) :
    ∀ l ∈ (onStopStep s).store.links, LinkTame s.store.links l := by
  intro l hl
  have hl2 : l ∈ s.store.links.map
      (fun l => { l with status := NStatus.pending }) := hl
  rw [List.mem_map] at hl2
  obtain ⟨l0, _, rfl⟩ := hl2
  exact Or.inl rfl

/-- A run start writes only the fresh `PENDING` links rebuilt from the graph
snapshot; the launches it performs do not touch links. -/
theorem linkTame_executeWorkflowStep (s : EngineState) :
    ∀ l ∈ (executeWorkflowStep s).store.links, LinkTame s.store.links l := by
  unfold executeWorkflowStep
  split
  · exact linkTame_of_links_eq rfl
  · dsimp only
    intro l hl
    have finish : l ∈ s.graphLinks.map (fun gl =>
        ({ fromNodeId := gl.fromNodeId, fromSlot := gl.fromSlot,
           toNodeId := gl.toNodeId, toSlot := gl.toSlot,
           status := NStatus.pending } : WfLink)) → LinkTame s.store.links l := by
      intro hm
      rcases List.mem_map.mp hm with ⟨l0, _, rfl⟩
      exact Or.inl rfl
    split at hl
    · rw [links_eq_invokeRunQueue, links_eq_pendingLoopEntry,
        links_eq_launchTasks] at hl
      exact finish hl
    · replace hl : l ∈ (pendingLoopEntry (launchTasks _ _ _).1).store.links := hl
      rw [links_eq_pendingLoopEntry, links_eq_launchTasks] at hl
      exact finish hl

/-- Every engine step is link-tame: it writes only `PENDING` or `DONE` link
statuses. -/
theorem linkTame_step (s : EngineState) (e : Event) :
    ∀ l ∈ (step s e).store.links, LinkTame s.store.links l := by
  cases e with
  | cmdRun =>
    show ∀ l ∈ (onRunStep s).store.links, LinkTame s.store.links l
    unfold onRunStep
    cases s.store.workflowStatus with
    | paused => exact linkTame_of_links_eq (links_eq_invokeRunQueue _)
    | progressing => exact linkTame_of_links_eq rfl
    | stopped => exact linkTame_executeWorkflowStep s
  | cmdPause =>
    show ∀ l ∈ (onPauseStep s).store.links, LinkTame s.store.links l
    unfold onPauseStep
    split <;> exact linkTame_of_links_eq rfl
  | cmdStop => exact linkTame_onStopStep s
  | cmdRetry nodeId =>
    unfold step
    dsimp only
    cases s.store.nodes.find? (fun n => n.id = nodeId) with
    | none => exact linkTame_of_links_eq rfl
    | some n =>
      dsimp only
      split
      · exact linkTame_of_links_eq (links_eq_retryNodeInput s nodeId)
      · exact linkTame_of_links_eq rfl
  | execOk cid v => exact linkTame_resumeExecOk s cid v
  | execErr cid => exact linkTame_of_links_eq (links_eq_resumeExecErr s cid)
  | fillOk cid values => exact linkTame_of_links_eq (links_eq_resumeFillOk s cid values)
  | fillErr cid => exact linkTame_of_links_eq (links_eq_resumeFillErr s cid)

/-! ## Claim theorems -/

/-- C1.  The claim says a node whose executor rejects is set to `ERROR` with
the global status `paused`.  The code has no `try`/`catch` around the
executor call on this path: evaluating Scenario C, the rejection propagates
as an unhandled rejection, `N1` stays `PROGRESSING` (never `ERROR`), the
global status stays `progressing` (never `paused`), and `N2` stays `PENDING`
with its dependency counter still 1 (the downstream part of the claim is the
only part the code honours). -/
theorem wf_C1_scenarioC :
    c1Final.store.nodes.map (fun n => (n.id, n.status)) =
      [("N1", NStatus.progressing), ("N2", NStatus.pending)] ∧
    c1Final.store.workflowStatus = GStatus.progressing ∧
    (activeRun c1Final).map (fun r => alistGet r.remainingDeps "N2") =
      some (some 1) ∧
    c1Final.log = [LogEntry.execLaunch "N1" [] [], LogEntry.unhandledRejection] := by
  exact ⟨rfl, rfl, rfl, rfl⟩

/-- C2.  The claim says each dependency counter is decremented exactly once
per satisfied edge and a node's task is launched at most once per run.  The
code does not check that a resuming completion still belongs to the current
Run Context: after stop + re-run, the stale completion of the first run's
executor call for `N1` and the second run's own completion each decrement
`N2`'s counter in run generation 1, leaving it at `-1` — two `depDecr`
entries for the single edge `N1 → N2` under generation 1. -/
theorem wf_C2_staleDoubleDecrement :
    (activeRun c2Final).map (fun r => alistGet r.remainingDeps "N2") =
      some (some (-1)) ∧
    c2Final.log =
      [LogEntry.execLaunch "N1" [] [], LogEntry.execLaunch "N1" [] [],
       LogEntry.depDecr 1 "N1" "N2" 0, LogEntry.enqueue 1 "N2",
       LogEntry.execLaunch "N2" [] [("N1", some NStatus.done, true)],
       LogEntry.depDecr 1 "N1" "N2" (-1)] := by
  exact ⟨rfl, rfl⟩

/-- C3.  The claim says a node's executor is never invoked before every
dependency node is `DONE` with its output stored.  Because stale completions
are not ignored (see C9), the stale `N1` completion plus the fresh one
decrement `N3`'s counter twice, driving it to zero and launching `N3` while
its dependency `N2` is still `PROGRESSING` with no stored result: the launch
log records `N3`'s dependency snapshot as `N1 = DONE` (result present) but
`N2 = PROGRESSING` (no result), and afterwards `N2` is indeed still
`PROGRESSING` with its executor call outstanding. -/
theorem wf_C3_launchBeforeDepsDone :
    c3Final.log.get? 7 =
      some (LogEntry.execLaunch "N3" []
        [("N1", some NStatus.done, true), ("N2", some NStatus.progressing, false)]) ∧
    nodeStatusOf c3Final "N2" = some NStatus.progressing ∧
    nodeStatusOf c3Final "N3" = some NStatus.progressing ∧
    (activeRun c3Final).map (fun r => alistGet r.results "N2") = some none := by
  exact ⟨rfl, rfl, rfl, rfl⟩

/-- C4.  `stop()` always yields: global status `stopped`, no pending-input
requests, an invalidated Run Context (`activeRun` nulled), every node
`PENDING` with empty `inputValues` and no `outputValue`, and every link
`PENDING` — from *any* engine state, however far the run had progressed. -/
theorem wf_C4_stopResetsEverything (s : EngineState) :
    (step s Event.cmdStop).store.workflowStatus = GStatus.stopped ∧
    (step s Event.cmdStop).store.pendingInputs = [] ∧
    (step s Event.cmdStop).activeGen = none ∧
    (∀ n ∈ (step s Event.cmdStop).store.nodes,
      n.status = NStatus.pending ∧ n.inputFormValues = [] ∧ n.outputValue = none) ∧
    (∀ l ∈ (step s Event.cmdStop).store.links, l.status = NStatus.pending) := by
  refine ⟨rfl, rfl, rfl, ?_, ?_⟩
  · intro n hn
    simp only [step, onStopStep, List.mem_map] at hn
    obtain ⟨m, _, rfl⟩ := hn
    exact ⟨rfl, rfl, rfl⟩
  · intro l hl
    simp only [step, onStopStep, List.mem_map] at hl
    obtain ⟨m, _, rfl⟩ := hl
    rfl

/-- C4, witness: the reset evaluated on a concrete mid-run state (`N1`'s
executor call is in flight when `stop` arrives). -/
theorem wf_C4_stopResetsEverything_witness :
    (step (runTrace [mkGNode "N1" 1] [] theDefs [Event.cmdRun]) Event.cmdStop).store.workflowStatus
      = GStatus.stopped ∧
    (∀ n ∈ (step (runTrace [mkGNode "N1" 1] [] theDefs [Event.cmdRun]) Event.cmdStop).store.nodes,
      n.status = NStatus.pending ∧ n.inputFormValues = [] ∧ n.outputValue = none) := by
  have h := wf_C4_stopResetsEverything (runTrace [mkGNode "N1" 1] [] theDefs [Event.cmdRun])
  exact ⟨h.1, h.2.2.2.1⟩

/-- C5, counterexample.  The claim says a link's status always mirrors its
source node's status (recomputed on `PROGRESSING`/`WAITING`/`ERROR` changes)
and that a link is `DONE` iff its source is `DONE`.  Both fail on reachable
states: in `c5aFinal` the source `N1` is `PROGRESSING` while its link is
still `PENDING` (links are never updated on a `PROGRESSING` transition), and
in `c5bFinal` the link `F → X` is `DONE` while its source `F` is `WAITING`
(a stale `catch` re-marked the node, and links are not recomputed). -/
theorem wf_C5_counterexample :
    nodeStatusOf c5aFinal "N1" = some NStatus.progressing ∧
    c5aFinal.store.links.map WfLink.status = [NStatus.pending] ∧
    nodeStatusOf c5bFinal "F" = some NStatus.waiting ∧
    c5bFinal.store.links.map WfLink.status = [NStatus.done] := by
  exact ⟨rfl, rfl, rfl, rfl⟩

/-- C5, amended.  What the code actually maintains about link statuses: a
link is only ever written `PENDING` (the run-start and stop resets, which
reset the nodes alongside) or `DONE` — no step assigns `ERROR`,
`PROGRESSING`, `WAITING` or `PAUSED` to a link — and the `DONE` write is the
completion update (`publishNodeDone`, the four success `setState` sites),
which marks exactly the completed node's outgoing links `DONE` in the same
update that publishes the node itself as `DONE`, leaving all other links
untouched.  Link statuses are *not* recomputed on other status changes of
the source node (see the counterexample). -/
theorem wf_C5_linkWriteDiscipline (s : EngineState) (e : Event) (nodeId : String)
    (f : WfNode → WfNode) :
    (∀ l ∈ (step s e).store.links,
      l.status = NStatus.pending ∨ l.status = NStatus.done ∨
        l.status ∈ s.store.links.map WfLink.status) ∧
    (∀ l ∈ (publishNodeDone s nodeId f).store.links,
      (l.fromNodeId = nodeId → l.status = NStatus.done) ∧
      (l.fromNodeId ≠ nodeId → l ∈ s.store.links)) ∧
    (∀ n ∈ (publishNodeDone s nodeId f).store.nodes, n.id = nodeId →
      n.status = NStatus.done) := by
  refine ⟨linkTame_step s e, ?_, ?_⟩
  · intro l hl
    have hl2 : l ∈ s.store.links.map (fun l =>
        if l.fromNodeId = nodeId then { l with status := NStatus.done } else l) := hl
    rw [List.mem_map] at hl2
    obtain ⟨l0, hl0, rfl⟩ := hl2
    by_cases h : l0.fromNodeId = nodeId
    · rw [if_pos h]
      exact ⟨fun _ => rfl, fun hn => absurd h hn⟩
    · rw [if_neg h]
      exact ⟨fun hn => absurd hn h, fun _ => hl0⟩
  · intro n hn
    have hn2 : n ∈ s.store.nodes.map (fun m =>
        if m.id = nodeId then { f m with status := NStatus.done } else m) := hn
    rw [List.mem_map] at hn2
    obtain ⟨m, hm, rfl⟩ := hn2
    intro hid
    by_cases h : m.id = nodeId
    · rw [if_pos h]
    · rw [if_neg h] at hid
      exact absurd hid h

/-- C5, amended, witness: the step discipline applied to a concrete state
and step (pausing the run of `c5aFinal`), at its single link. -/
theorem wf_C5_linkWriteDiscipline_witness :
    ({ fromNodeId := "N1", fromSlot := 0, toNodeId := "N2", toSlot := 0,
       status := NStatus.pending } : WfLink).status = NStatus.pending ∨
    ({ fromNodeId := "N1", fromSlot := 0, toNodeId := "N2", toSlot := 0,
       status := NStatus.pending } : WfLink).status = NStatus.done ∨
    ({ fromNodeId := "N1", fromSlot := 0, toNodeId := "N2", toSlot := 0,
       status := NStatus.pending } : WfLink).status ∈
      c5aFinal.store.links.map WfLink.status :=
  (wf_C5_linkWriteDiscipline c5aFinal Event.cmdPause "N1" (fun n => n)).1
    { fromNodeId := "N1", fromSlot := 0, toNodeId := "N2", toSlot := 0,
      status := NStatus.pending } (List.Mem.head _)

/-- C6.  The claim says the loop transitions the global status to `stopped`
only when the queue is empty, nothing is in flight, and no node is
`WAITING`.  In the code `runQueue` checks only its own queue: immediately
after `run`, the global status is already `stopped` while `F2` is `WAITING`,
`F1` is `PROGRESSING`, and `F1`'s input request is still outstanding (in
flight). -/
theorem wf_C6_stoppedWhileWaiting :
    c6Final.store.workflowStatus = GStatus.stopped ∧
    nodeStatusOf c6Final "F2" = some NStatus.waiting ∧
    nodeStatusOf c6Final "F1" = some NStatus.progressing ∧
    outstandingFillFor c6Final "F1" = true ∧
    c6Final.store.pendingInputs.map (fun i => (i.nodeId, i.status)) =
      [("F1", PStatus.pending), ("F2", PStatus.pending)] := by
  exact ⟨rfl, rfl, rfl, rfl, rfl⟩

/-- C7, counterexample.  The claim says a ready node with a required input
and no incoming edge is marked `WAITING` (not `PROGRESSING`) when the engine
publishes its `PendingInputRequest` and suspends.  In the code the node is
`WAITING` only between run start and being picked up; while the input
request is actually outstanding (the suspension), its published status is
`PROGRESSING`. -/
theorem wf_C7_counterexample :
    c7CexFinal.store.nodes.map (fun n => (n.id, n.status)) =
      [("F1", NStatus.progressing)] ∧
    outstandingFillFor c7CexFinal "F1" = true ∧
    c7CexFinal.log = [LogEntry.fillRequest "F1"] := by
  exact ⟨rfl, rfl, rfl⟩

/-- C7, amended.  What the engine actually does for a ready node with no
incoming edge and a non-empty input form (which covers every node with a
required input lacking a value): when processed it is marked `PROGRESSING`
(not `WAITING` — see counterexample), a `PendingInputRequest` is published
(`pending` item upserted) and the node suspends on the Input Resolver with
no executor invocation (the step appends exactly a `fillRequest` to the
log); the `WAITING` status appears at run start (before processing) and
again when the request is rejected.  The suspension does not block other
branches: in Scenario D, chain `B1 → B2` runs to `DONE` while `A1`'s
request is still outstanding. -/
theorem wf_C7_formNodeSuspension (s : EngineState) (node : WfNode)
    (ctx : CallerCtx) (run : Run)
    (hrun : activeRun s = some run)
    (hnoinc : (alistGet run.incoming node.id).getD [] = [])
    (hforms : toInputForms node run.nodeDefinitions ≠ []) :
    ((launchNode s node ctx).2 = none) ∧
    (∀ n ∈ (launchNode s node ctx).1.store.nodes, n.id = node.id →
      n.status = NStatus.progressing) ∧
    (∃ item ∈ (launchNode s node ctx).1.store.pendingInputs,
      item.nodeId = node.id ∧ item.status = PStatus.pending ∧
      item.form = toInputForms node run.nodeDefinitions) ∧
    ((launchNode s node ctx).1.log = s.log ++ [LogEntry.fillRequest node.id]) ∧
    (c7DFinal.store.nodes.map (fun n => (n.id, n.status)) =
      [("A1", NStatus.progressing), ("A2", NStatus.pending),
       ("B1", NStatus.done), ("B2", NStatus.done)]) ∧
    outstandingFillFor c7DFinal "A1" = true ∧
    (c7StartFinal.store.nodes.map (fun n => (n.id, n.status)) =
      [("G1", NStatus.progressing), ("G2", NStatus.waiting)]) ∧
    (c7StartFinal.store.pendingInputs.map (fun i => (i.nodeId, i.status)) =
      [("G1", PStatus.pending), ("G2", PStatus.pending)]) ∧
    (c7RejFinal.store.nodes.map (fun n => (n.id, n.status)) =
      [("F1", NStatus.waiting)]) ∧
    (c7RejFinal.store.pendingInputs.map (fun i => (i.nodeId, i.status)) =
      [("F1", PStatus.waiting)]) := by
  have hred : launchNode s node ctx =
      (issueFill (setPendingInputs (setNodeStatus s node.id NStatus.progressing)
        (fun items => upsertPendingInput items
          { nodeId := node.id, nodeName := getNodeName node,
            form := toInputForms node run.nodeDefinitions,
            status := PStatus.pending,
            formValue := some (buildFormValueFromOutputs node run) }))
        node.id
        (Susp.nodeFill node (toInputForms node run.nodeDefinitions) ctx), none) := by
    unfold launchNode
    rw [hrun]
    dsimp only
    rw [hnoinc]
    rw [if_neg (by decide : ¬ ([] : List GraphLink).length > 0)]
    rw [if_neg (fun h => hforms (List.length_eq_zero.mp h))]
  refine ⟨by rw [hred], ?_, ?_, by rw [hred]; rfl, rfl,
    rfl, rfl, rfl, rfl, rfl⟩
  · intro n hn hid
    rw [hred] at hn
    have hn2 : n ∈ s.store.nodes.map (fun m =>
        if m.id = node.id then { m with status := NStatus.progressing } else m) := hn
    rw [List.mem_map] at hn2
    obtain ⟨m, hm, rfl⟩ := hn2
    by_cases h : m.id = node.id
    · rw [if_pos h]
    · rw [if_neg h] at hid
      exact absurd hid h
  · rw [hred]
    exact ⟨_, mem_upsertPendingInput _ _, rfl, rfl, rfl⟩

/-- C7, amended, witness: the suspension property applied to the concrete
state `c7CexFinal` and its form node. -/
theorem wf_C7_formNodeSuspension_witness :
    (launchNode c7CexFinal
      { id := "F1", nodeId := 2, executionId := "2", title := some "F1",
        status := NStatus.progressing, inputFormValues := [],
        propertyValues := [], outputValue := none } CallerCtx.pendingLoop).2
      = none :=
  (wf_C7_formNodeSuspension c7CexFinal
    { id := "F1", nodeId := 2, executionId := "2", title := some "F1",
      status := NStatus.progressing, inputFormValues := [],
      propertyValues := [], outputValue := none }
    CallerCtx.pendingLoop _ rfl rfl (by decide)).1

/-- C8, counterexample.  The claim says every resolved input value satisfies
the validation rules (in particular a multi-select value does not exceed its
configured maximum) before the executor is invoked.  The max/parse checks
live only in the input modal; values resolved from upstream outputs bypass
them — the engine re-checks only required-missing.  Here `N2`'s executor is
invoked with a three-element array for the select field whose `max` is 2. -/
theorem wf_C8_counterexample :
    c8CexFinal.log.get? 3 =
      some (LogEntry.execLaunch "N2"
        [("0:s", JValue.jarr [JValue.jstr "a", JValue.jstr "b", JValue.jstr "c"])]
        [("N1", some NStatus.done, true)]) ∧
    selectField.max = some 2 ∧
    (JValue.jarr [JValue.jstr "a", JValue.jstr "b", JValue.jstr "c"]
      |> fun v => match v with | JValue.jarr xs => xs.length | _ => 0) = 3 := by
  exact ⟨rfl, rfl, rfl⟩

/-- C8, amended.  The validation the spec attributes to input resolution
lives in the modal's `handleSubmit`, and only there: when the modal submits
successfully (no error recorded across the whole field loop) a multi-select
field with cap `max = m` (`m` neither `0` nor `1`, and field keys distinct)
cannot deliver more than `m` selections — an over-long list would have
recorded the cap error and blocked the submission.  The engine itself, on
receiving delivered values, re-checks only `getRequiredMissing` and
otherwise hands them to the executor unchanged; upstream-resolved values
never pass through `handleSubmit` at all (see the counterexample). -/
theorem wf_C8_modalSelectCap (jsonParse : String → Option JValue)
    (inputForms : List InputForm) (values out : ValMap)
    (key : String) (input : InputField) (m : Nat) (xs : List JValue)
    (s : EngineState) (cid : Nat) (node : WfNode)
    (forms2 : List InputForm) (ctx : CallerCtx) (vals : ValMap)
    (hnodup : ((modalFields inputForms).map Prod.fst).Nodup)
    (hmem : (key, input) ∈ modalFields inputForms)
    (htype : input.type = SlotType.select)
    (hmax : input.max = some m) (hm0 : m ≠ 0) (hm1 : m ≠ 1)
    (hok : handleSubmit jsonParse inputForms values = some out)
    (hval : ValMap.get out key = JValue.jarr xs)
    (hsusp : alistGet s.susps cid = some (Susp.nodeFill node forms2 ctx)) :
    xs.length ≤ m ∧
    resumeFillOk s cid vals =
      (if getRequiredMissing forms2 vals then
        settleCtx (setNodeStatus (removeCid s cid) node.id NStatus.error)
          ctx node.id Outcome.error
      else
        issueExec (removeCid s cid) node.id vals
          (Susp.nodeExec node (ExecSite.execAfterFill vals) ctx)) := by
  constructor
  · obtain ⟨l1, l2, hsplit⟩ := List.append_of_mem hmem
    unfold handleSubmit at hok
    dsimp only at hok
    by_cases herr :
        ((modalFields inputForms).foldl (validateField jsonParse)
          (values, [])).2.length > 0
    · rw [if_pos herr] at hok
      exact absurd hok (by simp)
    · rw [if_neg herr] at hok
      have hout := Option.some.inj hok
      have herrnil :
          ((modalFields inputForms).foldl (validateField jsonParse)
            (values, [])).2 = [] := by
        cases hE : ((modalFields inputForms).foldl (validateField jsonParse)
            (values, [])).2 with
        | nil => rfl
        | cons a t => exact absurd (by rw [hE]; simp) herr
      rw [hsplit] at hout herrnil
      rw [List.foldl_append, List.foldl_cons] at hout herrnil
      have hkey : key ∉ l2.map Prod.fst := by
        rw [hsplit] at hnodup
        simp only [List.map_append, List.map_cons] at hnodup
        have h2 := hnodup.of_append_right
        rw [List.nodup_cons] at h2
        exact h2.1
      have hlater : ∀ f ∈ l2, key ≠ f.1 := by
        intro f hf hh
        apply hkey
        rw [hh]
        exact List.mem_map_of_mem Prod.fst hf
      have hget1 : ValMap.get out key =
          ValMap.get (validateField jsonParse
            (l1.foldl (validateField jsonParse) (values, []))
            (key, input)).1 key := by
        rw [← hout]
        exact foldl_validateField_get jsonParse l2 _ key hlater
      rw [validateField_select_values jsonParse _ key input htype] at hget1
      by_contra hgt
      push_neg at hgt
      have hcap := validateField_select_cap jsonParse
        (l1.foldl (validateField jsonParse) (values, [])) key input m xs
        htype hmax hm0 hm1 (by rw [← hget1]; exact hval) hgt
      exact foldl_validateField_errors_ne_nil jsonParse l2 _
        (by rw [hcap]; exact alistSet_ne_nil _ _ _) herrnil
  · unfold resumeFillOk
    rw [hsusp]

/-- C8, amended, witness: the cap guarantee applied to a successful
submission of the multi-select form, and the engine gate applied to the
outstanding input request of `c7CexFinal`. -/
theorem wf_C8_modalSelectCap_witness :
    ([JValue.jstr "a"] : List JValue).length ≤ 2 ∧
    resumeFillOk c7CexFinal 0 [] =
      (if getRequiredMissing [[promptField]] [] then
        settleCtx (setNodeStatus (removeCid c7CexFinal 0) "F1" NStatus.error)
          CallerCtx.pendingLoop "F1" Outcome.error
      else
        issueExec (removeCid c7CexFinal 0) "F1" []
          (Susp.nodeExec
            { id := "F1", nodeId := 2, executionId := "2", title := some "F1",
              status := NStatus.waiting, inputFormValues := [],
              propertyValues := [], outputValue := none }
            (ExecSite.execAfterFill []) CallerCtx.pendingLoop)) :=
  wf_C8_modalSelectCap (fun _ => none) [[selectField]]
    [("0:s", JValue.jarr [JValue.jstr "a"])]
    [("0:s", JValue.jarr [JValue.jstr "a"])]
    "0:s" selectField 2 [JValue.jstr "a"]
    c7CexFinal 0
    { id := "F1", nodeId := 2, executionId := "2", title := some "F1",
      status := NStatus.waiting, inputFormValues := [],
      propertyValues := [], outputValue := none }
    [[promptField]] CallerCtx.pendingLoop []
    (by decide) (by decide) rfl rfl (by decide) (by decide) rfl rfl rfl

/-- C9.  The claim says a stale executor completion is ignored: it mutates
neither the current results map nor the published statuses, and causes no
crash.  The continuation has no staleness check: resolving the first run's
call under the second run writes `"old"` into the *second* run's results
map, publishes `N1` as `DONE` with the first run's output while the second
run's own call is still outstanding, and (through `handleNodeSuccess` and
the empty queue) even flips the fresh run's status to `stopped`.  And when
it resolves after a plain stop (no new run), `activeRun.results.set` throws
a `TypeError` on the nulled context — an unhandled rejection — though the
published statuses stay reset in that case. -/
theorem wf_C9_staleResultNotIgnored :
    (activeRun c9Final).map Run.results = some [("N1", JValue.jstr "old")] ∧
    c9Final.store.nodes.map (fun n => (n.id, n.status)) = [("N1", NStatus.done)] ∧
    (c9Final.store.nodes.map WfNode.outputValue) = [some (JValue.jstr "old")] ∧
    c9Final.susps.map Prod.fst = [1] ∧
    c9Final.store.workflowStatus = GStatus.stopped ∧
    c9bFinal.log =
      [LogEntry.execLaunch "N1" [] [], LogEntry.nullDeref "N1",
       LogEntry.unhandledRejection] ∧
    c9bFinal.store.nodes.map (fun n => (n.id, n.status)) = [("N1", NStatus.pending)] := by
  exact ⟨rfl, rfl, rfl, rfl, rfl, rfl, rfl⟩

/-- C10.  `retryNodeInput` leaves the entire engine state unchanged when
there is no active run, the node id is unknown, or the node has at least one
incoming edge in the active run's dependency map; and its guard does not
check the node's status: on a concrete reachable state whose node `F` is
`DONE`, the call still proceeds — it re-marks `F` as `PROGRESSING` and
issues a fresh input request. -/
theorem wf_C10_retryGuards :
    (∀ (s : EngineState) (nodeId : String),
      (activeRun s = none ∨
       s.store.nodes.find? (fun n => n.id = nodeId) = none ∨
       (∃ run, activeRun s = some run ∧
         ((alistGet run.incoming nodeId).getD []).length > 0)) →
      retryNodeInput s nodeId = s) ∧
    nodeStatusOf c10DoneState "F" = some NStatus.done ∧
    (retryNodeInput c10DoneState "F").store.nodes.map (fun n => (n.id, n.status)) =
      [("F", NStatus.progressing)] ∧
    (retryNodeInput c10DoneState "F").log =
      c10DoneState.log ++ [LogEntry.fillRequest "F"] := by
  refine ⟨?_, rfl, rfl, rfl⟩
  intro s nodeId h
  cases hg : s.activeGen with
  | none => simp only [retryNodeInput, hg]
  | some g =>
    cases hr : alistGet s.runs g with
    | none => simp only [retryNodeInput, hg, hr]
    | some run0 =>
      have hact : activeRun s = some run0 := by
        simp only [activeRun, hg, hr]
      cases hf : s.store.nodes.find? (fun n => n.id = nodeId) with
      | none => simp only [retryNodeInput, hg, hr, hf]
      | some node =>
        rcases h with h | h | ⟨run, hrun, hlen⟩
        · rw [hact] at h; cases h
        · rw [hf] at h; cases h
        · rw [hact] at hrun
          injection hrun with e
          subst e
          simp only [retryNodeInput, hg, hr, hf]
          rw [if_pos hlen]

/-- C10, witness: the guard clause applied at a concrete input (the initial
state has no active run, so `retryNodeInput` is the identity on it). -/
theorem wf_C10_retryGuards_witness :
    retryNodeInput (initState [mkGNode "N1" 1] [] theDefs) "N1" =
      initState [mkGNode "N1" 1] [] theDefs := by
  exact wf_C10_retryGuards.1 (initState [mkGNode "N1" 1] [] theDefs) "N1" (Or.inl rfl)

end Workflow
